import Mathlib

/-!
Verification development for the `haadi` static analyzer (a Rust tool that
finds unused files, assets, dependencies and exports in JS/TS projects).

The development is a shallow embedding of the analyzer core:
 * `src/parser.rs` — comment stripping and regex-driven module parsing are
   embedded as executable functions over `List Char`; each regex of
   `src/lib.rs` is embedded as a dedicated left-to-right scanner that
   mirrors the regex's matching discipline (anchors, greedy/lazy capture,
   non-overlapping continuation after each match).
 * `src/lib.rs` — the resolver, reachability engine, unresolved-import
   arbiter, dependency attribution, export-usage engine, confidence gate
   and report assembly are embedded over `String` paths.  The filesystem
   is modelled by explicit sets of existing paths; `fs::canonicalize` is
   modelled as textual path normalization (`.`/`..` collapsing) — symlinks
   are outside the model.  `f64` percentages are modelled as `ℚ` (all
   arithmetic performed by the code is exact in the modelled range).
 * `src/entries.rs` and `src/tokens.rs` are embedded in full.
 * Component boundaries kept abstract (no claim depends on their
   internals): the directory walker, JSON parsing of `package.json` and
   tsconfig files (their extracted results are inputs of the model), and
   the asset usage solver of `src/scanner.rs` (its result set is an input
   of the model).  Warnings are presentation-only strings and are not
   modelled.
-/

/-! ## Character-level utilities (embedding `str` operations of Rust) -/

abbrev Chars := List Char

/-- The single-quote character, written via its code point. -/
def quoteS : Char := Char.ofNat 39

/-- The double-quote character. -/
def quoteD : Char := Char.ofNat 34

/-- The backtick character. -/
def quoteB : Char := Char.ofNat 96

/-- The left-brace character. -/
def lbr : Char := Char.ofNat 123

/-- The right-brace character. -/
def rbr : Char := Char.ofNat 125

/-- Whitespace as matched by the regex class `\s` and by `str::trim`
(ASCII fragment; the analyzed sources are ASCII). -/
def isWsC (c : Char) : Bool :=
  c = ' ' || c = Char.ofNat 9 || c = Char.ofNat 10 || c = Char.ofNat 13
    || c = Char.ofNat 11 || c = Char.ofNat 12

/-- First character of an identifier, regex class `[A-Za-z_$]`. -/
def isIdentStart (c : Char) : Bool :=
  ('A' ≤ c && c ≤ 'Z') || ('a' ≤ c && c ≤ 'z') || c = '_' || c = '$'

/-- Subsequent character of an identifier, regex class `[A-Za-z0-9_$]`
(the same class as `[\w$]` for ASCII input). -/
def isIdentChar (c : Char) : Bool :=
  isIdentStart c || ('0' ≤ c && c ≤ '9')

/-- Rust `str::trim_start` (ASCII fragment). -/
def trimL (l : Chars) : Chars := l.dropWhile (fun c => isWsC c)

/-- Rust `str::trim_end` (ASCII fragment). -/
def trimR (l : Chars) : Chars := (l.reverse.dropWhile (fun c => isWsC c)).reverse

/-- Rust `str::trim`. -/
def trimC (l : Chars) : Chars := trimL (trimR l)

/-- Prefix test on character lists (Rust `str::starts_with`). -/
def isPre : Chars → Chars → Bool
  | [], _ => true
  | _ :: _, [] => false
  | p :: ps, c :: cs => p = c && isPre ps cs

/-- Suffix test on character lists (Rust `str::ends_with`). -/
def isSuf (p l : Chars) : Bool := isPre p.reverse l.reverse

/-- Substring test (Rust `str::contains` with a string pattern). -/
def containsSub (p : Chars) : Chars → Bool
  | [] => p.isEmpty
  | c :: cs => isPre p (c :: cs) || containsSub p cs

/-- Rust `str::split` on a single character: splits at every occurrence,
keeping empty pieces. -/
def splitOnChar (sep : Char) : Chars → List Chars
  | [] => [[]]
  | c :: cs =>
    if c = sep then [] :: splitOnChar sep cs
    else
      match splitOnChar sep cs with
      | h :: t => (c :: h) :: t
      | [] => [[c]]

/-- Rust `str::split_once` with a single-character pattern. -/
def splitOnceChar (sep : Char) : Chars → Option (Chars × Chars)
  | [] => none
  | c :: cs =>
    if c = sep then some ([], cs)
    else (splitOnceChar sep cs).map (fun p => (c :: p.1, p.2))

/-- Rust `str::split_once` with a string pattern: splits at the first
occurrence of `pat`. -/
def splitOnceSub (pat : Chars) : Chars → Option (Chars × Chars)
  | [] => none
  | c :: cs =>
    if isPre pat (c :: cs) then some ([], (c :: cs).drop pat.length)
    else (splitOnceSub pat cs).map (fun p => (c :: p.1, p.2))

/-- Rust `str::trim_start_matches` with a single-character pattern:
strips every leading occurrence. -/
def trimLeadChar (m : Char) (l : Chars) : Chars := l.dropWhile (fun c => c = m)

/-- Rust `str::trim_end_matches` with a single-character pattern. -/
def trimTrailChar (m : Char) (l : Chars) : Chars :=
  (l.reverse.dropWhile (fun c => c = m)).reverse

/-- One bounded pass of `str::trim_start_matches` with a string pattern
(the bound only discharges termination: each strip removes at least one
character, so `l.length` steps always suffice). -/
def trimLeadSubGo (pat : Chars) : Nat → Chars → Chars
  | 0, l => l
  | n + 1, l =>
    if !pat.isEmpty && isPre pat l then trimLeadSubGo pat n (l.drop pat.length) else l

/-- Rust `str::trim_start_matches` with a string pattern: strips the
pattern repeatedly while it is a prefix. -/
def trimLeadSub (pat : Chars) (l : Chars) : Chars := trimLeadSubGo pat l.length l

/-- Insert into a list only when absent (models `HashSet::insert`; the
model's order is insertion order, membership is what downstream code
consumes). -/
def insertSet (x : String) (l : List String) : List String :=
  if l.contains x then l else l ++ [x]

/-- Number of newline characters in a buffer. -/
def countNl (l : Chars) : Nat := (l.filter (fun c => c = Char.ofNat 10)).length

/-- Rust `str::starts_with` on `String` values. -/
def strStarts (p s : String) : Bool := isPre p.data s.data

/-- Rust `str::ends_with` on `String` values. -/
def strEnds (p s : String) : Bool := isSuf p.data s.data

/-- ASCII lower-casing (`str::to_ascii_lowercase`; the file names the
analyzer lowercases are ASCII). -/
def strLower (s : String) : String :=
  String.mk (s.data.map (fun c =>
    if 65 ≤ c.toNat && c.toNat ≤ 90 then Char.ofNat (c.toNat + 32) else c))

/-- Lexicographic strict order on character lists by code point (the
byte order Rust compares `String`s with, on ASCII data). -/
def ltChars : Chars → Chars → Bool
  | [], [] => false
  | [], _ :: _ => true
  | _ :: _, [] => false
  | a :: as, b :: bs =>
    if a.toNat < b.toNat then true
    else if b.toNat < a.toNat then false
    else ltChars as bs

/-- Lexicographic weak order on character lists. -/
def leChars (a b : Chars) : Bool := !ltChars b a

/-! ## Lexical stripper (`strip_comments` of `src/parser.rs`)

The Rust function is an index-based scan with four implicit states:
ordinary code, inside a string literal (with escape handling), inside a
`//` comment, inside a `/*` comment.  The block-comment state scans with
a one-character lookahead (`while i + 1 < len`), so when a block comment
is unterminated the very last character of the buffer is re-processed in
the ordinary state — the embedding reproduces this faithfully. -/

inductive ScMode where
  | normal : ScMode
  | str : Char → ScMode
  | lineC : ScMode
  | blockC : ScMode
deriving DecidableEq

/-- The scan of `strip_comments`, one state per Rust loop region.  In the
ordinary state the string-opening test precedes the comment tests in the
Rust code; the three quote characters are distinct from `/`, so listing
the two comment-opening shapes first is equivalent.  In the block-comment
state the Rust code checks the terminator before the newline test.  At
an unterminated block comment the Rust outer loop re-processes the final
character in the ordinary state, which always emits exactly that
character — the `[c]` case below is that composition. -/
def scGo : ScMode → Chars → Chars
  | _, [] => []
  | .normal, '/' :: '/' :: r2 => scGo .lineC r2
  | .normal, '/' :: '*' :: r2 => scGo .blockC r2
  | .normal, c :: rest =>
    if c = quoteS || c = quoteD || c = quoteB then c :: scGo (.str c) rest
    else c :: scGo .normal rest
  | .str q, '\\' :: d :: r2 => '\\' :: d :: scGo (.str q) r2
  | .str _, '\\' :: [] => ['\\']
  | .str q, c :: rest =>
    if c = q then c :: scGo .normal rest else c :: scGo (.str q) rest
  | .lineC, c :: rest =>
    if c = '\n' then '\n' :: scGo .normal rest else scGo .lineC rest
  | .blockC, '*' :: '/' :: r2 => scGo .normal r2
  | .blockC, '\n' :: c2 :: r2 => '\n' :: scGo .blockC (c2 :: r2)
  | .blockC, _ :: c2 :: r2 => scGo .blockC (c2 :: r2)
  | .blockC, [c] => [c]

/-- `strip_comments` of `src/parser.rs`. -/
def stripComments (l : Chars) : Chars := scGo .normal l

/-! ## Identifier tokenization (`IDENT_TOKEN_RE` of `src/lib.rs`)

`build_file_token_cache` collects every match of
`[A-Za-z_$][A-Za-z0-9_$]*` over the raw file text; the regex engine
yields maximal, non-overlapping, leftmost matches, which for this pattern
is exactly: skip to the next identifier-start character, take the maximal
identifier run, continue after it. -/

def tokenizeGo : Nat → Chars → List String
  | _, [] => []
  | 0, _ => []
  | n + 1, c :: cs =>
    if isIdentStart c then
      let run := cs.takeWhile (fun d => isIdentChar d)
      String.mk (c :: run) :: tokenizeGo n (cs.drop run.length)
    else tokenizeGo n cs

/-- The token set of one file\x27s raw text (one entry of the cache built
by `build_file_token_cache` in `src/tokens.rs`; the fuel only discharges
termination — every step consumes at least one character, so the length
always suffices). -/
def tokensOf (source : String) : List String :=
  tokenizeGo source.data.length source.data

/-! ## Data model (`src/lib.rs` structs) -/

/-- One syntactic import site (`ImportRecord` of `src/lib.rs`).  The
`names` set of the Rust struct is a `HashSet<String>`; it is modelled as
an insertion-ordered duplicate-free list, and only membership is consumed
downstream. -/
structure ImportRecord where
  specifier : String
  uses_default : Bool
  uses_namespace : Bool
  names : List String
  side_effect_only : Bool
  is_reexport : Bool
deriving DecidableEq, Inhabited

/-- The all-false record (`ImportRecord::default()` with an empty
specifier; the Rust code always sets the specifier right away). -/
def emptyRecord : ImportRecord :=
  { specifier := "", uses_default := false, uses_namespace := false,
    names := [], side_effect_only := false, is_reexport := false }

/-- Per-file parse result (`ModuleInfo` of `src/lib.rs`). -/
structure ModuleInfo where
  imports : List ImportRecord
  exports : List String
  has_default_export : Bool
  has_export_all : Bool
deriving DecidableEq, Inhabited

/-- Usage accumulated against one consumed module (`ExportUsage`). -/
structure ExportUsage where
  all : Bool
  default_used : Bool
  names : List String
deriving DecidableEq, Inhabited

/-- `ExportUsage::default()`. -/
def emptyUsage : ExportUsage := { all := false, default_used := false, names := [] }

/-- Dependency classification (`DepKind` of `src/lib.rs`). -/
inductive DepKind where
  | Prod : DepKind
  | Dev : DepKind
  | Peer : DepKind
  | Optional : DepKind
deriving DecidableEq, Inhabited

/-- One unused-export finding (`UnusedExport` of `src/lib.rs`). -/
structure UnusedExport where
  file : String
  «export» : String
deriving DecidableEq, Inhabited

/-! ## Clause parsing (`src/parser.rs` helper functions) -/

/-- Fold new names into a `HashSet`-modelled name list
(`record.names.extend(...)` / `HashSet::insert`). -/
def extendNames (ns : List String) (new : List String) : List String :=
  new.foldl (fun acc n => insertSet n acc) ns

/-- `parse_export_names` of `src/parser.rs`: used both for brace lists
of import clauses and for `export { ... } ` lists without `from`.  For an
`x as y` entry it keeps the right-hand (export-side) name.  `penStep` is
the per-entry accumulation step of that function. -/
def penStep (out : List String) (raw : Chars) : List String :=
  let part := trimC raw
  if part = [] then out
  else if part = "default".data then insertSet "default" out
  else
    let base := match splitOnceSub " as ".data part with
      | some pr => trimC pr.2
      | none => part
    let exported := trimC (trimLeadSub "type ".data base)
    if exported = [] then out else insertSet (String.mk exported) out

def parseExportNames (names : Chars) : List String :=
  let trimmed := trimTrailChar rbr (trimLeadChar lbr (trimC names))
  (splitOnChar ',' trimmed).foldl penStep []

/-- `parse_export_list_as_import` of `src/parser.rs`: an
`export { ... } from '...'` list becomes a re-export import record, using
the left-hand (import-side) name of `x as y` entries. -/
def parseExportListAsImport (names : Chars) (rec0 : ImportRecord) : ImportRecord :=
  (splitOnChar ',' names).foldl
    (fun r raw =>
      let part := trimC raw
      if part = [] then r
      else if part = "default".data then { r with uses_default := true }
      else if part.head? = some '*' then
        { r with uses_namespace := true }
      else
        let base := match splitOnceSub " as ".data part with
          | some pr => trimC pr.1
          | none => part
        let importName := trimC (trimLeadSub "type ".data base)
        if importName = [] then r
        else { r with names := insertSet (String.mk importName) r.names })
    rec0

/-- `parse_destructured_names` of `src/parser.rs`: binding names of a
destructuring `require`, the left of `x: y` entries. -/
def parseDestructuredNames (names : Chars) : List String :=
  (splitOnChar ',' names).foldl
    (fun out raw =>
      let item := trimC raw
      if item = [] then out
      else
        let left := trimC (match splitOnceChar ':' item with
          | some pr => trimC pr.1
          | none => item)
        if left = [] then out else insertSet (String.mk left) out)
    []

/-- `parse_import_clause` of `src/parser.rs`. -/
def parseImportClause (clause : Chars) (rec0 : ImportRecord) : ImportRecord :=
  let cleaned := trimC clause
  let cleaned := trimC (if isPre "type ".data cleaned then cleaned.drop 5 else cleaned)
  let rec1 := if containsSub "* as".data cleaned then { rec0 with uses_namespace := true } else rec0
  if cleaned.head? = some lbr then
    { rec1 with names := extendNames rec1.names (parseExportNames cleaned) }
  else
    match splitOnceChar ',' cleaned with
    | some (first, rest) =>
      let rec2 := if trimC first ≠ [] then { rec1 with uses_default := true } else rec1
      let rec3 := if rest.contains '*' then { rec2 with uses_namespace := true } else rec2
      if rest.contains lbr then
        { rec3 with names := extendNames rec3.names (parseExportNames rest) }
      else rec3
    | none =>
      if cleaned.contains lbr then
        { rec1 with names := extendNames rec1.names (parseExportNames cleaned) }
      else if cleaned ≠ [] then { rec1 with uses_default := true }
      else rec1

/-! ## Regex scanners

Each static regex of `src/lib.rs` is embedded as a function that attempts
a match at one position (given whether the position is a line start, for
`(?m)^`-anchored patterns) and a generic driver `scanA` that produces the
same match sequence as `Regex::captures_iter`: leftmost matches,
continuing after the end of each match. -/

/-- Drop leading `\s*`. -/
def dropWs (l : Chars) : Chars := l.dropWhile (fun c => isWsC c)

/-- Match a literal, returning the remainder. -/
def takeLit (pat : Chars) (l : Chars) : Option Chars :=
  if isPre pat l then some (l.drop pat.length) else none

/-- Single or double quote (the regex class `['"]`). -/
def isQuoteSD (c : Char) : Bool := c = quoteS || c = quoteD

/-- Match `['"]([^'"]+)['"]`: an opening quote, a non-empty greedy run of
non-quote characters, a closing quote (either kind, as in the regex). -/
def takeStrLit (l : Chars) : Option (String × Chars) :=
  match l with
  | c :: rest =>
    if isQuoteSD c then
      let cap := rest.takeWhile (fun d => !(isQuoteSD d))
      if cap = [] then none
      else
        match rest.drop cap.length with
        | d :: r3 => if isQuoteSD d then some (String.mk cap, r3) else none
        | [] => none
    else none
  | [] => none

/-- Match `\{\s*([^}]+)\s*\}` at a position whose head is `{`: the greedy
capture runs to the next `}` (so it keeps interior and trailing
whitespace); when the body is all whitespace the engine backtracks `\s*`
by one character and captures that last whitespace character. -/
def takeBraceBody (l : Chars) : Option (Chars × Chars) :=
  match l with
  | c :: rest =>
    if c = lbr then
      let wsP := rest.takeWhile (fun d => isWsC d)
      let afterWs := rest.drop wsP.length
      let core := afterWs.takeWhile (fun d => d ≠ rbr)
      let capAfter : Option (Chars × Chars) :=
        if core ≠ [] then some (core, afterWs.drop core.length)
        else
          match wsP.reverse with
          | w :: _ => some ([w], afterWs)
          | [] => none
      match capAfter with
      | some (cap, after) =>
        match after with
        | d :: r2 => if d = rbr then some (cap, r2) else none
        | [] => none
      | none => none
    else none
  | [] => none

/-- Core of `REQUIRE_RE` after its leading context:
`require\(\s*['"]([^'"]+)['"]\s*\)`. -/
def tryRequireCore (l : Chars) : Option (String × Chars) :=
  match takeLit "require(".data l with
  | some l1 =>
    match takeStrLit (dropWs l1) with
    | some (cap, l3) =>
      (takeLit ")".data (dropWs l3)).map (fun l5 => (cap, l5))
    | none => none
  | none => none

/-- `REQUIRE_RE` = `(?m)(?:^|\s|=)require\(\s*['"]([^'"]+)['"]\s*\)`:
the alternation tries the zero-width `^` first, then a consumed
whitespace or `=` character. -/
def tryRequire (atStart : Bool) (l : Chars) : Option (String × Chars) :=
  match (if atStart then tryRequireCore l else none) with
  | some r => some r
  | none =>
    match l with
    | c :: rest => if isWsC c || c = '=' then tryRequireCore rest else none
    | [] => none

/-- `DESTRUCTURE_REQUIRE_RE` =
`\{\s*([^}]+)\s*\}\s*=\s*require\(\s*['"]([^'"]+)['"]\s*\)`. -/
def tryDestructure (_atStart : Bool) (l : Chars) : Option ((Chars × String) × Chars) :=
  match takeBraceBody l with
  | some (cap, afterBrace) =>
    match takeLit "=".data (dropWs afterBrace) with
    | some l1 =>
      match tryRequireCore (dropWs l1) with
      | some (spec, rest) => some ((cap, spec), rest)
      | none => none
    | none => none
  | none => none

/-- `DYN_IMPORT_RE` = `import\(\s*['"]([^'"]+)['"]\s*\)` (unanchored). -/
def tryDynImport (_atStart : Bool) (l : Chars) : Option (String × Chars) :=
  match takeLit "import(".data l with
  | some l1 =>
    match takeStrLit (dropWs l1) with
    | some (cap, l3) =>
      (takeLit ")".data (dropWs l3)).map (fun l5 => (cap, l5))
    | none => none
  | none => none

/-- `IMPORT_SIDE_EFFECT_RE` = `(?m)^\s*import\s+['"]([^'"]+)['"]`. -/
def tryImportSideEffect (atStart : Bool) (l : Chars) : Option (String × Chars) :=
  if atStart then
    match takeLit "import".data (dropWs l) with
    | some l2 =>
      match l2 with
      | c :: _ => if isWsC c then takeStrLit (dropWs l2) else none
      | [] => none
    | none => none
  else none

/-- Attempt to finish the lazy clause of `IMPORT_FROM_RE`:
`\s+from\s+['"]([^'"]+)['"]` (the two `\s+` runs are deterministic here
because `from` and the quote begin with non-whitespace characters). -/
def tryFromTail (l : Chars) : Option (String × Chars) :=
  match l with
  | c :: _ =>
    if isWsC c then
      match takeLit "from".data (dropWs l) with
      | some l2 =>
        match l2 with
        | d :: _ => if isWsC d then takeStrLit (dropWs l2) else none
        | [] => none
      | none => none
    else none
  | [] => none

/-- Lazy scan of the clause capture `([^;\n]+?)` of `IMPORT_FROM_RE`:
grow the clause one character at a time (never across `;` or a newline),
preferring to finish with `\s+from\s+['"]...['"]` as early as possible. -/
def clauseScan (acc : Chars) (cur : Chars) : Option ((Chars × String) × Chars) :=
  match (if acc ≠ [] then tryFromTail cur else none) with
  | some (spec, rest) => some ((acc, spec), rest)
  | none =>
    match cur with
    | x :: t => if x = ';' || x = '\n' then none else clauseScan (acc ++ [x]) t
    | [] => none

/-- Backtracking over the `\s+` run that follows `import`: the engine
prefers the longest whitespace run, handing shorter runs (whose dropped
characters then start the clause) to the lazy clause scan only when the
longer runs fail. -/
def importFromWs (afterImport : Chars) : Nat → Option ((Chars × String) × Chars)
  | 0 => none
  | n + 1 =>
    match clauseScan [] (afterImport.drop (n + 1)) with
    | some r => some r
    | none => importFromWs afterImport n

/-- `IMPORT_FROM_RE` =
`(?m)^\s*import\s+([^;\n]+?)\s+from\s+['"]([^'"]+)['"]`. -/
def tryImportFrom (atStart : Bool) (l : Chars) : Option ((Chars × String) × Chars) :=
  if atStart then
    match takeLit "import".data (dropWs l) with
    | some l2 =>
      let run := (l2.takeWhile (fun c => isWsC c)).length
      importFromWs l2 run
    | none => none
  else none

/-- Declaration keywords of `EXPORT_DECL_RE`, in the alternation order of
the regex. -/
def declKinds : List Chars :=
  ["const".data, "let".data, "var".data, "function".data, "class".data,
   "interface".data, "type".data, "enum".data]

/-- Try each declaration keyword with its full continuation
`\s+([A-Za-z_$][\w$]*)` (the regex alternation backtracks into the next
branch when the continuation fails). -/
def tryDeclKinds (l : Chars) : List Chars → Option (String × Chars)
  | [] => none
  | k :: ks =>
    match takeLit k l with
    | some l4 =>
      match l4 with
      | c :: _ =>
        if isWsC c then
          match dropWs l4 with
          | d :: ds =>
            if isIdentStart d then
              let run := ds.takeWhile (fun e => isIdentChar e)
              some (String.mk (d :: run), ds.drop run.length)
            else tryDeclKinds l ks
          | [] => tryDeclKinds l ks
        else tryDeclKinds l ks
      | [] => tryDeclKinds l ks
    | none => tryDeclKinds l ks

/-- `EXPORT_DECL_RE` =
`(?m)^\s*export\s+(?:const|let|var|function|class|interface|type|enum)\s+([A-Za-z_$][\w$]*)`. -/
def tryExportDecl (atStart : Bool) (l : Chars) : Option (String × Chars) :=
  if atStart then
    match takeLit "export".data (dropWs l) with
    | some l2 =>
      match l2 with
      | c :: _ => if isWsC c then tryDeclKinds (dropWs l2) declKinds else none
      | [] => none
    | none => none
  else none

/-- `EXPORT_LIST_RE` =
`(?m)^\s*export\s*\{\s*([^}]+)\s*\}(?:\s*from\s*['"]([^'"]+)['"])?`
(the `from` group is optional; both its `\s*` runs may be empty). -/
def tryExportList (atStart : Bool) (l : Chars) : Option ((Chars × Option String) × Chars) :=
  if atStart then
    match takeLit "export".data (dropWs l) with
    | some l2 =>
      match takeBraceBody (dropWs l2) with
      | some (cap, afterBrace) =>
        match takeLit "from".data (dropWs afterBrace) with
        | some l4 =>
          match takeStrLit (dropWs l4) with
          | some (spec, r) => some ((cap, some spec), r)
          | none => some ((cap, none), afterBrace)
        | none => some ((cap, none), afterBrace)
      | none => none
    | none => none
  else none

/-- Word character of the regex `\b` boundary (`\w` = `[0-9A-Za-z_]`;
`$` is not a word character). -/
def isRegexWord (c : Char) : Bool :=
  ('0' ≤ c && c ≤ '9') || ('A' ≤ c && c ≤ 'Z') || ('a' ≤ c && c ≤ 'z') || c = '_'

/-- `EXPORT_DEFAULT_RE` = `(?m)^\s*export\s+default\b`. -/
def tryExportDefault (atStart : Bool) (l : Chars) : Option (Unit × Chars) :=
  if atStart then
    match takeLit "export".data (dropWs l) with
    | some l2 =>
      match l2 with
      | c :: _ =>
        if isWsC c then
          match takeLit "default".data (dropWs l2) with
          | some l4 =>
            match l4 with
            | d :: _ => if isRegexWord d then none else some ((), l4)
            | [] => some ((), l4)
          | none => none
        else none
      | [] => none
    | none => none
  else none

/-- `EXPORT_ALL_RE` = `(?m)^\s*export\s+\*\s+from\s+['"]([^'"]+)['"]`. -/
def tryExportAll (atStart : Bool) (l : Chars) : Option (String × Chars) :=
  if atStart then
    match takeLit "export".data (dropWs l) with
    | some l2 =>
      match l2 with
      | c :: _ =>
        if isWsC c then
          match takeLit "*".data (dropWs l2) with
          | some l4 => tryFromTail l4
          | none => none
        else none
      | [] => none
    | none => none
  else none

/-- Driver shared by all scans, bounded pass: the same match sequence as
`Regex::captures_iter` — leftmost matches, each scan resuming at the end
of the previous match; `(?m)^` holds at offset 0 and right after a
newline.  Every embedded matcher consumes at least one character on
success (the in-body length check and the fuel only discharge
termination; `l.length + 1` steps always suffice). -/
def scanGo (f : Bool → Chars → Option (α × Chars)) : Nat → Chars → Bool → List α
  | 0, _, _ => []
  | n + 1, l, atStart =>
    match f atStart l with
    | some (a, rest) =>
      if rest.length < l.length then
        a :: scanGo f n rest (l[l.length - rest.length - 1]? == some '\n')
      else [a]
    | none =>
      match l with
      | [] => []
      | c :: t => scanGo f n t (c == '\n')

/-- Full scan of a buffer. -/
def scanA (f : Bool → Chars → Option (α × Chars)) (l : Chars) (atStart : Bool) : List α :=
  scanGo f (l.length + 1) l atStart

/-- `parse_module` of `src/parser.rs` (on the already-read file text):
strip comments, then run every regex family in the order of the Rust
code, assembling the `ModuleInfo`. -/
def parseModule (source : String) : ModuleInfo :=
  let s := stripComments source.data
  let fromMatches := scanA tryImportFrom s true
  let sideMatches := scanA tryImportSideEffect s true
  let reqMatches := scanA tryRequire s true
  let desMatches := scanA tryDestructure s true
  let dynMatches := scanA tryDynImport s true
  let declMatches := scanA tryExportDecl s true
  let listMatches := scanA tryExportList s true
  let defaultSeen := scanA tryExportDefault s true ≠ []
  let allMatches := scanA tryExportAll s true
  let imports :=
    fromMatches.map (fun m => parseImportClause m.1 { emptyRecord with specifier := m.2 })
    ++ sideMatches.map (fun sp => { emptyRecord with specifier := sp, side_effect_only := true })
    ++ reqMatches.map (fun sp => { emptyRecord with specifier := sp, uses_namespace := true })
    ++ desMatches.map (fun m =>
        { emptyRecord with specifier := m.2, names := parseDestructuredNames m.1 })
    ++ dynMatches.map (fun sp => { emptyRecord with specifier := sp, uses_namespace := true })
    ++ listMatches.filterMap (fun m =>
        match m.2 with
        | some sp =>
          some (parseExportListAsImport m.1 { emptyRecord with specifier := sp, is_reexport := true })
        | none => none)
    ++ allMatches.map (fun sp =>
        { emptyRecord with specifier := sp, uses_namespace := true, is_reexport := true })
  let exports0 := declMatches.foldl
    (fun acc n => if n ≠ "" then insertSet n acc else acc) []
  let exports := listMatches.foldl
    (fun acc m =>
      match m.2 with
      | some _ => acc
      | none => extendNames acc (parseExportNames m.1))
    exports0
  { imports := imports, exports := exports,
    has_default_export := defaultSeen, has_export_all := allMatches ≠ [] }

/-! ## Path model

Paths are absolute `/`-separated strings.  `fs::canonicalize` is modelled
as textual normalization (`normPath`); symlinks are outside the model.
Existence tests are modelled by membership in explicit path sets: for
`resolve_candidate_path` the known source set itself (a candidate that
exists on disk but does not canonicalize into the known set is skipped by
the Rust loop exactly as a non-existing one), and for
`local_target_exists` a world-supplied set of all existing paths. -/

/-- Segments of a path (Rust `Path::components`, textual). -/
def pathSegs (p : String) : List String := (splitOnChar '/' p.data).map String.mk

/-- Collapse `.`/`..`/empty segments, as `fs::canonicalize` does for an
existing symlink-free path (and as `normalize_path_components` of
`src/scanner.rs` does textually). -/
def normSegsGo (acc : List String) : List String → List String
  | [] => acc.reverse
  | s :: rest =>
    if s = "" || s = "." then normSegsGo acc rest
    else if s = ".." then
      match acc with
      | _ :: t => normSegsGo t rest
      | [] => normSegsGo [] rest
    else normSegsGo (s :: acc) rest

/-- Join segments with `/` separators. -/
def joinSegs : List String → Chars
  | [] => []
  | [s] => s.data
  | s :: rest => s.data ++ '/' :: joinSegs rest

/-- Textual canonical form of an absolute path. -/
def normPath (p : String) : String :=
  String.mk ('/' :: joinSegs (normSegsGo [] (pathSegs p)))

/-- Rust `Path::join` for the joins the analyzer performs. -/
def joinPath (a b : String) : String :=
  if strStarts "/" b then b else a ++ "/" ++ b

/-- Rust `Path::parent` (textual; `""` for a single root segment, which
re-joins to the same absolute paths). -/
def parentDir (p : String) : String :=
  String.mk ((p.data.reverse.dropWhile (fun c => c ≠ '/')).drop 1).reverse

/-- Last path segment (Rust `Path::file_name` for the paths the analyzer
builds). -/
def fileNameOf (p : String) : String :=
  String.mk (p.data.reverse.takeWhile (fun c => c ≠ '/')).reverse

/-- Whether Rust `Path::extension` is `Some`: the file name contains a
dot after its first character. -/
def hasExtPath (p : String) : Bool :=
  ((fileNameOf p).data.drop 1).contains '.'

/-- Rust `Path::file_stem`: the file name up to its last dot, unless the
only dot leads the name. -/
def fileStemOf (p : String) : String :=
  let n := (fileNameOf p).data
  if (n.drop 1).contains '.' then
    String.mk (((n.reverse.dropWhile (fun c => c ≠ '.')).drop 1).reverse)
  else String.mk n

/-- `relative_display` of `src/output.rs`: strip the root prefix when
possible. -/
def relativeDisplay (root p : String) : String :=
  if p = root then ""
  else if strStarts (root ++ "/") p then String.mk (p.data.drop (root.data.length + 1))
  else p

/-- Replace backslashes by forward slashes (`str::replace('\\', "/")`). -/
def replaceBackslash (s : String) : String :=
  String.mk (s.data.map (fun c => if c = '\\' then '/' else c))

/-! ## Shared constants of `src/lib.rs` -/

/-- `JS_TS_EXTENSIONS`. -/
def jstsExtensions : List String := ["js", "jsx", "ts", "tsx", "mjs", "cjs"]

/-- `LOCAL_EXISTING_EXTENSIONS`. -/
def localExistingExtensions : List String :=
  ["js", "jsx", "ts", "tsx", "mjs", "cjs", "json", "css", "scss", "sass", "less",
   "png", "jpg", "jpeg", "gif", "webp", "avif", "svg", "ico", "bmp", "tiff",
   "mp4", "webm", "mp3", "wav", "ogg", "woff", "woff2", "ttf", "otf", "eot",
   "pdf", "txt"]

/-- `NEXT_APP_ROUTE_FILES`. -/
def nextAppRouteFiles : List String :=
  ["page", "layout", "route", "loading", "error", "not-found", "template",
   "default", "head"]

/-! ## File-kind predicates of `src/lib.rs` -/

/-- `is_declaration_file`. -/
def isDeclarationFile (p : String) : Bool :=
  strEnds ".d.ts" (fileNameOf p)

/-- `is_test_like_file`. -/
def isTestLikeFile (p : String) : Bool :=
  containsSub ".test.".data (fileNameOf p).data
  || containsSub ".spec.".data (fileNameOf p).data
  || containsSub "/__tests__/".data p.data
  || containsSub "\\__tests__\\".data p.data

/-- `is_public_asset`: some path component equals `public`. -/
def isPublicAsset (p : String) : Bool :=
  (pathSegs p).contains "public"

/-- The well-known config file names of `is_common_config_file`. -/
def knownConfigNames : List String :=
  ["eslint.config.js", "eslint.config.cjs", "eslint.config.mjs",
   "eslint.config.ts", "eslint.config.mts", "eslint.config.cts",
   "vite.config.js", "vite.config.cjs", "vite.config.mjs",
   "vite.config.ts", "vite.config.mts", "vite.config.cts",
   "vitest.config.js", "vitest.config.cjs", "vitest.config.mjs",
   "vitest.config.ts", "vitest.config.mts", "vitest.config.cts",
   "jest.config.js", "jest.config.cjs", "jest.config.mjs",
   "jest.config.ts", "jest.config.mts", "jest.config.cts",
   "webpack.config.js", "webpack.config.cjs", "webpack.config.mjs",
   "webpack.config.ts",
   "rollup.config.js", "rollup.config.cjs", "rollup.config.mjs",
   "rollup.config.ts",
   "postcss.config.js", "postcss.config.cjs",
   "tailwind.config.js", "tailwind.config.cjs", "tailwind.config.ts",
   "babel.config.js", "babel.config.cjs",
   "commitlint.config.js", "commitlint.config.cjs",
   "lint-staged.config.js", "lint-staged.config.cjs"]

/-- `is_common_config_file`. -/
def isCommonConfigFile (p : String) : Bool :=
  let fileName := fileNameOf p
  if containsSub "config".data (strLower fileName).data then true
  else if strStarts ".eslintrc" fileName || strStarts ".prettierrc" fileName
      || strStarts ".stylelintrc" fileName || strStarts ".babelrc" fileName then true
  else if containsSub ".config.".data fileName.data
      && ([".js", ".cjs", ".mjs", ".ts", ".cts", ".mts", ".json"].any
            (fun e => strEnds e fileName)) then true
  else knownConfigNames.contains fileName

/-! ## Specifier classification and alias matching (`src/lib.rs`) -/

/-- `normalize_specifier`: trim, cut a `?query` and `#fragment` suffix,
trim again. -/
def normalizeSpecifier (s : String) : String :=
  let out := trimC s.data
  if out = [] then ""
  else
    let out := match splitOnceChar '?' out with
      | some pr => pr.1
      | none => out
    let out := match splitOnceChar '#' out with
      | some pr => pr.1
      | none => out
    String.mk (trimC out)

/-- `is_relative_specifier`. -/
def isRelativeSpecifier (s : String) : Bool :=
  strStarts "./" s || strStarts "../" s

/-- `looks_like_package_specifier`: bare names; dotted paths, `#`-leading
and path-like specifiers are treated as potentially local. -/
def looksLikePackageSpecifier (s : String) : Bool :=
  if isRelativeSpecifier s || strStarts "/" s then false
  else if strStarts "#" s then false
  else if s.data.contains '.' then false
  else true

/-- `package_name`: the first segment, or the first two for a scoped
`@scope/name` specifier. -/
def packageName (s : String) : String :=
  match (splitOnChar '/' s.data).map String.mk with
  | [] => ""
  | first :: rest =>
    if strStarts "@" first then first ++ "/" ++ rest.headD "" else first

/-- `match_alias` of `src/lib.rs`.  A key with `*` matches by literal
prefix and suffix, capturing the middle; a key without `*` matches only
by equality with an empty capture.  (When the specifier is shorter than
prefix+suffix the Rust slice would panic; the model yields the empty
capture — the analyzer never reaches that state for its rule sets.) -/
def matchAlias (aliasKey spec : String) : Option String :=
  match splitOnceChar '*' aliasKey.data with
  | some (pre, suf) =>
    if isPre pre spec.data && isSuf suf spec.data then
      some (String.mk ((spec.data.drop pre.length).take (spec.data.length - suf.length - pre.length)))
    else none
  | none => if aliasKey = spec then some "" else none

/-- `apply_alias_target`: substitute the capture for every `*` of the
target, or use the target verbatim. -/
def applyAliasTarget (target star : String) : String :=
  if target.data.contains '*' then
    String.mk (target.data.flatMap (fun c => if c = '*' then star.data else [c]))
  else target

/-! ## Candidate expansion and the resolver (`src/lib.rs`) -/

/-- `AliasRule` of `src/lib.rs`. -/
structure AliasRule where
  key : String
  target : String
  base_dir : String
deriving DecidableEq, Inhabited

/-- `Resolver` of `src/lib.rs`. -/
structure Resolver where
  files : List String
  root : String
  base_dirs : List String
  alias_rules : List AliasRule
deriving DecidableEq, Inhabited

/-- Candidate list of `resolve_candidate_path`: the path itself when it
has an extension; otherwise the path, then `path.<ext>`, then
`path/index.<ext>` over the source extensions. -/
def expandCandidates (raw : String) : List String :=
  if hasExtPath raw then [raw]
  else [raw] ++ jstsExtensions.map (fun e => raw ++ "." ++ e)
       ++ jstsExtensions.map (fun e => raw ++ "/index." ++ e)

/-- `resolve_candidate_path`: the first candidate whose canonical form is
a member of the known source set resolves. -/
def resolveCandidatePath (files : List String) (raw : String) : Option String :=
  (expandCandidates raw).findSome? (fun c =>
    let n := normPath c
    if files.contains n then some n else none)

/-- Candidate list of `local_target_exists` (broader extension set). -/
def expandCandidatesLocal (raw : String) : List String :=
  if hasExtPath raw then [raw]
  else [raw] ++ localExistingExtensions.map (fun e => raw ++ "." ++ e)
       ++ localExistingExtensions.map (fun e => raw ++ "/index." ++ e)

/-- `local_target_exists`, over the world's set of existing paths. -/
def localTargetExists (fsPaths : List String) (raw : String) : Bool :=
  (expandCandidatesLocal raw).any (fun c => fsPaths.contains (normPath c))

/-- One iteration of the alias loop of `Resolver::resolve_specifier`:
when the rule's key matches, resolve the substituted target against the
rule's base directory. -/
def aliasAttempt (files : List String) (r : AliasRule) (n : String) : Option String :=
  match matchAlias r.key n with
  | some star => resolveCandidatePath files (joinPath r.base_dir (applyAliasTarget r.target star))
  | none => none

/-- `Resolver::resolve_specifier`. -/
def Resolver.resolveSpecifier (R : Resolver) (fromFile : String) (spec : String) : Option String :=
  let n := normalizeSpecifier spec
  if n = "" then none
  else if isRelativeSpecifier n then
    resolveCandidatePath R.files (joinPath (parentDir fromFile) n)
  else if strStarts "/" n then
    resolveCandidatePath R.files (joinPath R.root (String.mk (n.data.drop 1)))
  else
    match R.alias_rules.findSome? (fun r => aliasAttempt R.files r n) with
    | some p => some p
    | none =>
      if !(looksLikePackageSpecifier n) then
        R.base_dirs.findSome? (fun b => resolveCandidatePath R.files (joinPath b n))
      else none

/-- `Resolver::is_likely_local_specifier`. -/
def Resolver.isLikelyLocalSpecifier (R : Resolver) (spec : String) : Bool :=
  let n := normalizeSpecifier spec
  if n = "" then false
  else if isRelativeSpecifier n || strStarts "/" n then true
  else if R.alias_rules.any (fun r => (matchAlias r.key n).isSome) then true
  else if !(looksLikePackageSpecifier n) then true
  else false

/-- `Resolver::local_specifier_exists`, over the world's set of existing
paths. -/
def Resolver.localSpecifierExists (R : Resolver) (fsPaths : List String)
    (fromFile : String) (spec : String) : Bool :=
  let n := normalizeSpecifier spec
  if n = "" then false
  else if isRelativeSpecifier n then
    localTargetExists fsPaths (joinPath (parentDir fromFile) n)
  else if strStarts "/" n then
    localTargetExists fsPaths (joinPath R.root (String.mk (n.data.drop 1)))
  else if R.alias_rules.any (fun r =>
      match matchAlias r.key n with
      | some star => localTargetExists fsPaths (joinPath r.base_dir (applyAliasTarget r.target star))
      | none => false) then true
  else if !(looksLikePackageSpecifier n) then
    R.base_dirs.any (fun b => localTargetExists fsPaths (joinPath b n))
  else false

/-! ## Deterministic ordering (`BTreeSet`, `Vec::sort`, `Vec::dedup`) -/

/-- Insertion step of an insertion sort over an arbitrary boolean
order. -/
def insSortedBy (le : α → α → Bool) (x : α) : List α → List α
  | [] => [x]
  | y :: t => if le x y then x :: y :: t else y :: insSortedBy le x t

/-- Insertion sort (models `Vec::sort`/`sort_by` up to the placement of
equal elements, which the analyzer always follows with `dedup`). -/
def sortByFn (le : α → α → Bool) (l : List α) : List α := l.foldr (insSortedBy le) []

/-- String order (`Ord` on Rust `String`: lexicographic). -/
def leStr (a b : String) : Bool := leChars a.data b.data

/-- `Vec::sort` on strings. -/
def sortStrings (l : List String) : List String := sortByFn leStr l

/-- Remove adjacent duplicates (`Vec::dedup`). -/
def dedupAdj [DecidableEq α] : List α → List α
  | [] => []
  | [x] => [x]
  | x :: y :: t => if x = y then dedupAdj (y :: t) else x :: dedupAdj (y :: t)

/-- Iteration order of a `BTreeSet<String>`: sorted, without
duplicates. -/
def sortDedupStr (l : List String) : List String := dedupAdj (sortStrings l)

/-- Lexicographic order on `UnresolvedImport` pairs
`(from_file, specifier)` (the derived `Ord` of the Rust struct). -/
def leUnres (a b : String × String) : Bool :=
  ltChars a.1.data b.1.data || (decide (a.1 = b.1) && leChars a.2.data b.2.data)

/-- Report order of unused exports: by file, then export name
(`sort_by` in `run`). -/
def leUE (a b : UnusedExport) : Bool :=
  ltChars a.file.data b.file.data
  || (decide (a.file = b.file) && leChars a.«export».data b.«export».data)

/-! ## Entry discovery (`src/entries.rs`) -/

/-- `is_framework_convention_entry`. -/
def isFrameworkConventionEntry (root f : String) : Bool :=
  if strStarts (root ++ "/") f then
    let rel := replaceBackslash (String.mk (f.data.drop (root.data.length + 1)))
    if strStarts "pages/" rel || strStarts "src/pages/" rel then true
    else if strStarts "app/" rel || strStarts "src/app/" rel then
      nextAppRouteFiles.contains (fileStemOf f)
    else false
  else false

/-- The conventional entry names tried by `discover_entries`, in
order. -/
def conventionalEntryNames : List String :=
  ["src/index.ts", "src/index.tsx", "src/index.js", "src/index.jsx",
   "src/main.ts", "src/main.tsx", "src/main.js", "src/main.jsx",
   "index.ts", "index.js"]

/-- `discover_entries` of `src/entries.rs`.  `manifestEntries` is the
output of `package_json_entry_candidates` (the `package.json` fields
`main`, `module`, `types`, `browser`, the `bin` values and every string
leaf under `exports`), taken as an input at the JSON component
boundary. -/
def discoverEntries (root : String) (files : List String) (cliEntries : List String)
    (manifestEntries : List String) : List String :=
  let cliResolved := sortDedupStr (cliEntries.filterMap
    (fun e => resolveCandidatePath files (joinPath root e)))
  if cliResolved ≠ [] then cliResolved
  else
    let fromManifest := manifestEntries.filterMap
      (fun e => resolveCandidatePath files (joinPath root e))
    let fromConventional := conventionalEntryNames.filterMap
      (fun c => resolveCandidatePath files (joinPath root c))
    let fromFiles := files.filter
      (fun f => isFrameworkConventionEntry root f || isTestLikeFile f)
    sortDedupStr (fromManifest ++ fromConventional ++ fromFiles)

/-! ## Reachability engine (`reachable_files` of `src/lib.rs`) -/

/-- Module lookup (`modules.get(...)` on the map keyed by source
path). -/
def lookupMod (mods : List (String × ModuleInfo)) (f : String) : Option ModuleInfo :=
  (mods.find? (fun m => m.1 = f)).map (fun m => m.2)

/-- Total number of import records across the module map (used only to
bound the breadth-first traversal). -/
def totalImports (mods : List (String × ModuleInfo)) : Nat :=
  (mods.map (fun m => m.2.imports.length)).sum

/-- Import records of the map entries whose key is not yet seen (the
quantity the traversal bound tracks). -/
def remImports (mods : List (String × ModuleInfo)) (seen : List String) : Nat :=
  ((mods.filter (fun m => decide (m.1 ∉ seen))).map (fun m => m.2.imports.length)).sum

/-- Breadth-first traversal of `reachable_files`, bounded pass: pop, skip
already-seen files, mark seen, resolve every import of the file's module
and enqueue resolved targets not yet seen.  The fuel only discharges
termination: every pop consumes one queue slot and enqueues at most
the import count of a newly seen module key, so
`queue.length + remImports mods seen + 1` steps always suffice (proved
as `reachGoF_closure` below).  `nextsOf` is the per-pop enqueue step:
resolve every import of the popped file's module and keep the resolved
targets not yet seen. -/
def nextsOf (R : Resolver) (mods : List (String × ModuleInfo))
    (seen2 : List String) (c : String) : List String :=
  match lookupMod mods c with
  | none => []
  | some m => m.imports.filterMap (fun imp =>
      match R.resolveSpecifier c imp.specifier with
      | some nxt => if seen2.contains nxt then none else some nxt
      | none => none)

def reachGoF (R : Resolver) (mods : List (String × ModuleInfo)) :
    Nat → List String → List String → List String
  | 0, seen, _ => seen
  | n + 1, seen, queue =>
    match queue with
    | [] => seen
    | c :: q =>
      if seen.contains c then reachGoF R mods n seen q
      else reachGoF R mods n (c :: seen) (q ++ nextsOf R mods (c :: seen) c)

/-- `reachable_files`: breadth-first closure from the entries. -/
def reachableFiles (entries : List String) (mods : List (String × ModuleInfo))
    (R : Resolver) : List String :=
  reachGoF R mods (entries.length + totalImports mods + 1) [] entries

/-! ## Unresolved-import arbiter (`src/lib.rs`) -/

/-- `collect_unresolved_local_imports`: for every reachable file,
every import that looks local but neither resolves nor exists with the broader
probe, collected into a `BTreeSet` (sorted, deduplicated pairs). -/
def collectUnresolvedLocalImports (R : Resolver) (fsPaths : List String)
    (reach : List String) (mods : List (String × ModuleInfo)) : List (String × String) :=
  let raw := reach.flatMap (fun f =>
    match lookupMod mods f with
    | none => []
    | some m => m.imports.filterMap (fun imp =>
        if R.isLikelyLocalSpecifier imp.specifier
            && (R.resolveSpecifier f imp.specifier).isNone
            && !(R.localSpecifierExists fsPaths f imp.specifier) then
          some (f, imp.specifier)
        else none))
  dedupAdj (sortByFn leUnres raw)

/-- Cut `?query`/`#fragment` and rewrite backslashes, shared by the two
suffix helpers. -/
def cleanSpecifierPath (spec : String) : String :=
  let l := match splitOnceChar '?' spec.data with
    | some pr => pr.1
    | none => spec.data
  let l := match splitOnceChar '#' l with
    | some pr => pr.1
    | none => l
  replaceBackslash (String.mk l)

/-- Bounded pass of the `while` loop of `unresolved_specifier_suffixes`
(each iteration drops at least two characters, so `l.length` steps always
suffice; the `./` test comes first, as in the Rust loop). -/
def stripRelLeadGo : Nat → Chars → Chars
  | 0, l => l
  | n + 1, l =>
    if isPre "./".data l then stripRelLeadGo n (l.drop 2)
    else if isPre "../".data l then stripRelLeadGo n (l.drop 3)
    else l

/-- Strip leading `./` and `../` runs. -/
def stripRelLead (l : Chars) : Chars := stripRelLeadGo l.length l

/-- `strip_file_extension` of `src/lib.rs`: drop the extension of the
final path segment, when it has one. -/
def stripFileExtensionStr (pathLike : String) : String :=
  let fileName := (pathLike.data.reverse.takeWhile (fun c => c ≠ '/')).reverse
  if fileName.contains '.' then
    let tailLen := (fileName.reverse.takeWhile (fun c => c ≠ '.')).length
    String.mk (pathLike.data.take (pathLike.data.length - tailLen - 1))
  else pathLike

/-- `unresolved_specifier_suffixes`: the candidate suffix set of an
unresolved specifier (raw, alias-stripped, scope-stripped and
`src/`-stripped forms), sorted and with empty entries removed. -/
def unresolvedSpecifierSuffixes (spec : String) : List String :=
  let base := String.mk (stripRelLead (trimC (cleanSpecifierPath spec).data))
  let out := (if strStarts "/" base then [String.mk (base.data.drop 1)] else [])
    ++ [base]
    ++ (if strStarts "@/" base then [String.mk (base.data.drop 2)] else [])
    ++ (if strStarts "~/" base then [String.mk (base.data.drop 2)] else [])
    ++ (if strStarts "@" base then
          match splitOnceChar '/' base.data with
          | some pr => [String.mk pr.2]
          | none => []
        else [])
    ++ (if strStarts "src/" base then [String.mk (base.data.drop 4)] else [])
  (sortDedupStr out).filter (fun v => v ≠ "")

/-- `unresolved_leaf_name`: the last non-empty path segment of the
cleaned specifier, without its extension; `.`/`..` leaves yield
nothing. -/
def unresolvedLeafName (spec : String) : Option String :=
  let clean := cleanSpecifierPath spec
  match (((splitOnChar '/' clean.data).map String.mk).filter (fun v => v ≠ "")).getLast? with
  | none => none
  | some leaf =>
    if leaf = "." || leaf = ".." then none
    else some (stripFileExtensionStr leaf)

/-- `infer_potentially_used_files_from_unresolved`: files a suspicious
specifier might have pointed to, by suffix or leaf-stem matching. -/
def inferPotentiallyUsedFiles (files : List String) (unresolved : List (String × String))
    (root : String) : List String :=
  files.filter (fun file =>
    let rel := replaceBackslash (relativeDisplay root file)
    let relNoExt := stripFileExtensionStr rel
    unresolved.any (fun item =>
      let suffixes := unresolvedSpecifierSuffixes item.2
      let leaf := unresolvedLeafName item.2
      suffixes.any (fun suffix =>
        decide (relNoExt = suffix)
        || strEnds ("/" ++ suffix) relNoExt
        || strEnds ("/" ++ suffix) rel
        || strEnds ("/" ++ suffix ++ "/index") relNoExt)
      || (match leaf with
          | some leafName => fileStemOf file = leafName
          | none => false)))

/-! ## Dependency attribution (`src/lib.rs`) -/

/-- `collect_used_packages`: package names of reachable imports that do
not resolve locally and look like package specifiers. -/
def collectUsedPackages (R : Resolver) (reach : List String)
    (mods : List (String × ModuleInfo)) : List String :=
  reach.foldl (fun used f =>
    match lookupMod mods f with
    | none => used
    | some m => m.imports.foldl (fun used imp =>
        let n := normalizeSpecifier imp.specifier
        if (R.resolveSpecifier f n).isNone && looksLikePackageSpecifier n then
          insertSet (packageName n) used
        else used) used) []

/-- The unused-dependency computation of `run` (`src/lib.rs`, the
`unused_dependencies` filter chain): declared names of the requested
kinds, never `@types/`-prefixed, not in the used set, sorted. -/
def unusedDependenciesOf (declaredDeps : List (String × DepKind)) (includeNonProd : Bool)
    (usedPackages : List String) : List String :=
  sortStrings (((declaredDeps.filter (fun d =>
    if strStarts "@types/" d.1 then false
    else if !includeNonProd then
      match d.2 with
      | DepKind.Prod => true
      | _ => false
    else true)).map (fun d => d.1)).filter (fun name => !(usedPackages.contains name)))

/-! ## Token engine (`src/tokens.rs`) -/

/-- Content lookup for one file (the model of a per-file read;
`build_file_token_cache` defaults missing reads to the empty string). -/
def contentOf (contents : List (String × String)) (f : String) : String :=
  ((contents.find? (fun p => p.1 = f)).map (fun p => p.2)).getD ""

/-- `build_file_token_cache`: identifier tokens of every file's raw
text. -/
def tokenCacheOf (contents : List (String × String)) (files : List String) :
    List (String × List String) :=
  files.map (fun f => (f, tokensOf (contentOf contents f)))

/-- Token set of one file in the cache. -/
def cacheTokens (cache : List (String × List String)) (f : String) : Option (List String) :=
  (cache.find? (fun p => p.1 = f)).map (fun p => p.2)

/-- `count_tokens_in_scope`, read off at one token: the number of scope
files whose token set contains it (files missing from the cache
contribute nothing). -/
def countTokensInScope (scope : List String) (cache : List (String × List String))
    (tok : String) : Nat :=
  (scope.filter (fun f =>
    match cacheTokens cache f with
    | some ts => ts.contains tok
    | none => false)).length

/-- `export_appears_in_other_reachable_files` of `src/tokens.rs`: the
count-based suppression test (more than one reachable file holds the
token; a single-file scope that is the file itself also counts). -/
def exportAppearsInOtherReachableFiles (scope : List String)
    (cache : List (String × List String)) (exportName : String) (file : String) : Bool :=
  if exportName = "" then false
  else
    let count := countTokensInScope scope cache exportName
    if count = 0 then false
    else if decide (count > 1) then true
    else decide (scope.length = 1) && scope.contains file && decide (count > 0)

/-- `export_appears_in_other_project_files` of `src/tokens.rs` (the same
test over the whole project file set). -/
def exportAppearsInOtherProjectFiles (allFiles : List String)
    (cache : List (String × List String)) (exportName : String) (file : String) : Bool :=
  if exportName = "" then false
  else
    let count := countTokensInScope allFiles cache exportName
    if count = 0 then false
    else if decide (count > 1) then true
    else decide (allFiles.length = 1) && allFiles.contains file && decide (count > 0)

/-! ## Export-usage engine (the gate-open branch of `run`) -/

/-- `usage.entry(target).or_default()` followed by a mutation. -/
def usageUpdate (usage : List (String × ExportUsage)) (target : String)
    (f : ExportUsage → ExportUsage) : List (String × ExportUsage) :=
  match usage.find? (fun p => p.1 = target) with
  | some _ => usage.map (fun p => if p.1 = target then (p.1, f p.2) else p)
  | none => usage ++ [(target, f emptyUsage)]

/-- The two usage-accrual passes of `run`: ordinary imports first
(namespace ⇒ `all`, default flag, named union), then re-exports
(conservatively `all`). -/
def buildUsage (R : Resolver) (reach : List String)
    (mods : List (String × ModuleInfo)) : List (String × ExportUsage) :=
  let pass1 := reach.foldl (fun usage file =>
    match lookupMod mods file with
    | none => usage
    | some m => m.imports.foldl (fun usage imp =>
        if imp.side_effect_only || imp.is_reexport then usage
        else
          match R.resolveSpecifier file imp.specifier with
          | some resolved => usageUpdate usage resolved (fun u =>
              { all := u.all || imp.uses_namespace,
                default_used := u.default_used || imp.uses_default,
                names := u.names ++ imp.names })
          | none => usage) usage) []
  reach.foldl (fun usage file =>
    match lookupMod mods file with
    | none => usage
    | some m => m.imports.foldl (fun usage imp =>
        if !imp.is_reexport then usage
        else
          match R.resolveSpecifier file imp.specifier with
          | some resolved => usageUpdate usage resolved (fun u => { u with all := true })
          | none => usage) usage) pass1

/-- `usage.get(file).cloned().unwrap_or_default()`. -/
def usageOf (usage : List (String × ExportUsage)) (f : String) : ExportUsage :=
  ((usage.find? (fun p => p.1 = f)).map (fun p => p.2)).getD emptyUsage

/-- The unused-export emission loop of `run` (`src/lib.rs` lines
352–411): per reachable, non-suspect, non-entry, non-test, non-stub
module whose usage is not `all`, emit named exports that are neither
token-suppressed nor named-used, and the default export when unused;
then sort by (file, export) and deduplicate. -/
def collectUnusedExports (root : String) (mods : List (String × ModuleInfo))
    (reach : List String) (maybeUsed : List String) (entrySet : List String)
    (usage : List (String × ExportUsage)) (cache : List (String × List String))
    (files : List String) : List UnusedExport :=
  let raw := mods.flatMap (fun fm =>
    let file := fm.1
    let module := fm.2
    if !(reach.contains file) then []
    else if maybeUsed.contains file then []
    else if entrySet.contains file || isTestLikeFile file || isDeclarationFile file then []
    else
      let used := usageOf usage file
      if !used.all then
        (module.exports.filterMap (fun exportName =>
          if exportAppearsInOtherReachableFiles reach cache exportName file then none
          else if exportAppearsInOtherProjectFiles files cache exportName file then none
          else if !(used.names.contains exportName) then
            some { file := relativeDisplay root file, «export» := exportName }
          else none))
        ++ (if module.has_default_export && !used.default_used then
              [{ file := relativeDisplay root file, «export» := "default" }]
            else [])
      else [])
  dedupAdj (sortByFn leUE raw)

/-! ## The analyzer world and `run`

`SourceWorld` carries everything `run` obtains from the filesystem
before the analysis proper: the canonical source and asset sets produced
by the scanner, the file contents, the set of existing paths (for the
broad existence probe), and the outputs of the JSON-reading helpers
(`package_json_entry_candidates`, `collect_declared_dependencies`, the
tsconfig walk of `build_resolver`) and of the asset usage solver of
`src/scanner.rs`, each taken at its component boundary. -/

structure SourceWorld where
  root : String
  files : List String
  contents : List (String × String)
  assets : List String
  fsPaths : List String
  manifestEntries : List String
  declaredDeps : List (String × DepKind)
  configBaseDirs : List String
  configAliasRules : List AliasRule
  solverUsedAssets : List String
deriving DecidableEq, Inhabited

/-- The command-line flags of `Cli` that reach the analysis. -/
structure CliFlags where
  entries : List String
  include_non_prod_deps : Bool
  include_low_confidence : Bool
  asset_roots : List String
deriving DecidableEq, Inhabited

/-- `normalize_asset_root`. -/
def normalizeAssetRoot (v : String) : String :=
  String.mk (trimTrailChar '/' (trimLeadChar '/'
    (trimLeadSub "./".data (replaceBackslash (String.mk (trimC v.data))).data)))

/-- `filter_assets_by_roots`. -/
def filterAssetsByRoots (root : String) (assets : List String)
    (assetRoots : List String) : List String :=
  if assetRoots = [] then assets
  else
    let roots := (assetRoots.map normalizeAssetRoot).filter (fun v => v ≠ "")
    if roots = [] then assets
    else assets.filter (fun asset =>
      let rel := replaceBackslash (relativeDisplay root asset)
      roots.any (fun pre => decide (rel = pre) || strStarts (pre ++ "/") rel))

/-- `dedup_paths` of `build_resolver`: canonicalize and keep first
occurrences. -/
def dedupPaths (paths : List String) : List String :=
  paths.foldl (fun out p =>
    let c := normPath p
    if out.contains c then out else out ++ [c]) []

/-- `build_resolver`: the known file set, the root, the default base
dirs `[root, root/src]` extended by the configured `baseUrl` dirs (then
deduplicated on canonical form), and the configured alias rules.  The
tsconfig discovery and JSONC parsing sit at the JSON component boundary:
their extracted outputs are the world's `configBaseDirs` and
`configAliasRules`. -/
def resolverOf (w : SourceWorld) : Resolver :=
  { files := w.files,
    root := w.root,
    base_dirs := dedupPaths ([w.root, joinPath w.root "src"] ++ w.configBaseDirs),
    alias_rules := w.configAliasRules }

/-- The parsed module map of `run` (one `parse_module` per source
file). -/
def modulesOf (w : SourceWorld) : List (String × ModuleInfo) :=
  w.files.map (fun f => (f, parseModule (contentOf w.contents f)))

/-- The discovered entries of a run. -/
def entriesOf (w : SourceWorld) (fl : CliFlags) : List String :=
  discoverEntries w.root w.files fl.entries w.manifestEntries

/-- The reachable set of a run. -/
def reachableOf (w : SourceWorld) (fl : CliFlags) : List String :=
  reachableFiles (entriesOf w fl) (modulesOf w) (resolverOf w)

/-- The unresolved local imports of a run. -/
def unresolvedOf (w : SourceWorld) (fl : CliFlags) : List (String × String) :=
  collectUnresolvedLocalImports (resolverOf w) w.fsPaths (reachableOf w fl) (modulesOf w)

/-- `maybe_used_from_unresolved` of a run. -/
def maybeUsedOf (w : SourceWorld) (fl : CliFlags) : List String :=
  inferPotentiallyUsedFiles w.files (unresolvedOf w fl) w.root

/-- The used-package set of a run. -/
def usedPackagesOf (w : SourceWorld) (fl : CliFlags) : List String :=
  collectUsedPackages (resolverOf w) (reachableOf w fl) (modulesOf w)

/-- The unused dependencies of a run. -/
def unusedDepsOf (w : SourceWorld) (fl : CliFlags) : List String :=
  unusedDependenciesOf w.declaredDeps fl.include_non_prod_deps (usedPackagesOf w fl)

/-- The confidence gate: open when there are no unresolved local imports
or when low-confidence findings were requested. -/
def gateOpenOf (w : SourceWorld) (fl : CliFlags) : Bool :=
  (unresolvedOf w fl).isEmpty || fl.include_low_confidence

/-- `ReportSummary` of `src/lib.rs` (the `f64` coverage percentage is
modelled as `ℚ`; every value the code computes here is exact). -/
structure ReportSummary where
  total_source_files : Nat
  total_asset_files : Nat
  total_reachable_files : Nat
  total_entries : Nat
  unresolved_local_imports : Nat
  high_confidence_graph : Bool
  omitted_risky_findings : Bool
  unused_files_count : Nat
  used_assets_count : Nat
  unused_assets_count : Nat
  asset_usage_coverage_pct : ℚ
  unused_dependencies_count : Nat
  unused_exports_count : Nat
deriving DecidableEq, Inhabited

/-- `Report` of `src/lib.rs` (warnings are presentation-only strings and
are not part of the model). -/
structure Report where
  root : String
  summary : ReportSummary
  entries : List String
  unused_files : List String
  used_assets : List String
  unused_assets : List String
  unused_dependencies : List String
  unused_exports : List UnusedExport
deriving DecidableEq, Inhabited

/-- The analysis of `run` (`src/lib.rs`), from the post-filesystem world
to the report.  The asset usage solver's result set
(`collect_used_assets`) is the world's `solverUsedAssets`. -/
def runAnalysis (w : SourceWorld) (fl : CliFlags) : Report :=
  let assets := filterAssetsByRoots w.root w.assets fl.asset_roots
  let mods := modulesOf w
  let entries := entriesOf w fl
  let reach := reachableOf w fl
  let unresolved := unresolvedOf w fl
  let maybeUsed := maybeUsedOf w fl
  let highConfidence := unresolved.isEmpty
  let unusedDependencies := unusedDepsOf w fl
  let gate := highConfidence || fl.include_low_confidence
  let unusedFiles :=
    if gate then
      sortStrings ((w.files.filter (fun f =>
        !(reach.contains f)
        && !isTestLikeFile f && !isDeclarationFile f && !isCommonConfigFile f)).map
        (relativeDisplay w.root))
    else []
  let usedAssets :=
    if gate then sortStrings (w.solverUsedAssets.map (relativeDisplay w.root)) else []
  let unusedAssets :=
    if gate then
      sortStrings ((assets.filter (fun a =>
        !(w.solverUsedAssets.contains a) && !isPublicAsset a)).map
        (relativeDisplay w.root))
    else []
  let unusedExports :=
    if gate then
      collectUnusedExports w.root mods reach maybeUsed entries
        (buildUsage (resolverOf w) reach mods) (tokenCacheOf w.contents w.files) w.files
    else []
  let totalAssetFiles := assets.length
  let unusedAssetsCount := unusedAssets.length
  let usedAssetsCount := totalAssetFiles - unusedAssetsCount
  { root := w.root,
    summary :=
      { total_source_files := w.files.length,
        total_asset_files := totalAssetFiles,
        total_reachable_files := reach.length,
        total_entries := entries.length,
        unresolved_local_imports := unresolved.length,
        high_confidence_graph := highConfidence,
        omitted_risky_findings := !gate,
        unused_files_count := unusedFiles.length,
        used_assets_count := usedAssetsCount,
        unused_assets_count := unusedAssetsCount,
        asset_usage_coverage_pct :=
          if totalAssetFiles = 0 then 0
          else ((usedAssetsCount : ℚ) * 100) / (totalAssetFiles : ℚ),
        unused_dependencies_count := unusedDependencies.length,
        unused_exports_count := unusedExports.length },
    entries := entries.map (relativeDisplay w.root),
    unused_files := unusedFiles,
    used_assets := usedAssets,
    unused_assets := unusedAssets,
    unused_dependencies := unusedDependencies,
    unused_exports := unusedExports }

/-! ## Specification-side definitions and concrete worlds for the claims -/

/-- Alias resolution as the specification sentence words it (for the
comparison in claim C6): the FIRST rule whose key matches the specifier
decides the outcome, and no later rule is consulted once a key has
matched.  (The code, by contrast, keeps trying later rules when the
matched rule's target fails to resolve.) -/
def specAliasFirstMatch (files : List String) (rules : List AliasRule) (n : String) :
    Option String :=
  match rules.find? (fun r => (matchAlias r.key n).isSome) with
  | some r => aliasAttempt files r n
  | none => none

/-- World with one entry whose only import cannot be resolved, one asset
and a two-kind manifest: the confidence gate closes (claims C1 and
C10). -/
def wGate : SourceWorld :=
  { root := "/r",
    files := ["/r/e.ts"],
    contents := [("/r/e.ts", "import \x27./missing\x27;\n")],
    assets := ["/r/logo.png"],
    fsPaths := ["/r/e.ts", "/r/logo.png"],
    manifestEntries := [],
    declaredDeps := [("lodash", DepKind.Prod), ("jest", DepKind.Dev)],
    configBaseDirs := [],
    configAliasRules := [],
    solverUsedAssets := [] }

/-- Flags naming the entry explicitly, everything else off. -/
def flGate : CliFlags :=
  { entries := ["e.ts"], include_non_prod_deps := false,
    include_low_confidence := false, asset_roots := [] }

/-- The dependency scenario of claim C7: one `Prod` and one `Dev`
dependency, no source importing either. -/
def wDeps : SourceWorld :=
  { root := "/r",
    files := ["/r/index.ts"],
    contents := [("/r/index.ts", "")],
    assets := [],
    fsPaths := ["/r/index.ts"],
    manifestEntries := [],
    declaredDeps := [("lodash", DepKind.Prod), ("jest", DepKind.Dev)],
    configBaseDirs := [],
    configAliasRules := [],
    solverUsedAssets := [] }

/-- Default flags: no explicit entries, prod-only dependency checks. -/
def flDefault : CliFlags :=
  { entries := [], include_non_prod_deps := false,
    include_low_confidence := false, asset_roots := [] }

/-- Flags with the include-non-prod option set. -/
def flNonProd : CliFlags :=
  { entries := [], include_non_prod_deps := true,
    include_low_confidence := false, asset_roots := [] }

/-- World for the counterexample of claim C3: module `m.ts` exports the
name `ab` spelled with an interior block comment (`a/**/b`), so `ab` is
an export of the stripped text but not an identifier token of the raw
text; the sibling `n.ts` does contain the token `ab`. -/
def wTok : SourceWorld :=
  { root := "/r",
    files := ["/r/e.ts", "/r/m.ts", "/r/n.ts"],
    contents :=
      [("/r/e.ts", "import \x27./m\x27;\nimport \x27./n\x27;\n"),
       ("/r/m.ts", "export \x7ba/**/b\x7d;"),
       ("/r/n.ts", "const ab = 1;\n")],
    assets := [],
    fsPaths := ["/r/e.ts", "/r/m.ts", "/r/n.ts"],
    manifestEntries := [],
    declaredDeps := [],
    configBaseDirs := [],
    configAliasRules := [],
    solverUsedAssets := [] }

/-- Plain two-module world whose non-entry module has one genuinely
unused export (witnesses of claims C3 and C4). -/
def wPlain : SourceWorld :=
  { root := "/r",
    files := ["/r/e.ts", "/r/m.ts"],
    contents :=
      [("/r/e.ts", "import \x27./m\x27;\n"),
       ("/r/m.ts", "export const zqx = 1;\n")],
    assets := [],
    fsPaths := ["/r/e.ts", "/r/m.ts"],
    manifestEntries := [],
    declaredDeps := [],
    configBaseDirs := [],
    configAliasRules := [],
    solverUsedAssets := [] }

/-- Resolver with two alias rules sharing the key `@/*`: the first
rule's target directory holds no file, the second one's does (claim
C6). -/
def rTwoRules : Resolver :=
  { files := ["/r/b/x.ts"],
    root := "/r",
    base_dirs := ["/r", "/r/src"],
    alias_rules :=
      [{ key := "@/*", target := "./a/*", base_dir := "/r" },
       { key := "@/*", target := "./b/*", base_dir := "/r" }] }

/-- World whose only source file is the conventional `src/index.ts`
entry (claim C8). -/
def wConv : SourceWorld :=
  { root := "/r",
    files := ["/r/src/index.ts"],
    contents := [("/r/src/index.ts", "")],
    assets := [],
    fsPaths := ["/r/src/index.ts"],
    manifestEntries := [],
    declaredDeps := [],
    configBaseDirs := [],
    configAliasRules := [],
    solverUsedAssets := [] }

/-- The destructuring-require site of claim C5, as a complete source
text. -/
def destructureSite : String := "const \x7b a, b: renamed \x7d = require(\x27s\x27)"

/-- A second destructuring-require site (different binders and
specifier), for the amended claim C5. -/
def destructureSite2 : String := "const \x7b x, y: z \x7d = require(\x27pkg\x27)"

/-- The import clause of claim C2. -/
def clauseC2 : Chars := "\x7b a, b as c, type d \x7d".data

/-! ## Graph view of the traversal and claim-statement predicates -/

/-- Total import count of the module-map entries with a given key (the
fuel the traversal frees when it marks that key seen). -/
def keyImports (mods : List (String × ModuleInfo)) (c : String) : Nat :=
  ((mods.filter (fun m => m.1 = c)).map (fun m => m.2.imports.length)).sum

/-- One resolvable import edge of the module graph: file `f`’s module
holds an import record whose specifier resolves to `t`. -/
def importEdge (R : Resolver) (mods : List (String × ModuleInfo)) (f t : String) : Prop :=
  ∃ m, lookupMod mods f = some m ∧
    ∃ imp ∈ m.imports, R.resolveSpecifier f imp.specifier = some t

/-- Interior of a terminated string literal as `strip_comments` scans it:
every backslash is followed by another character (the escape consumes
both) and every unescaped character differs from the closing quote. -/
def strBodyOK (q : Char) : Chars → Bool
  | [] => true
  | c :: rest =>
    if c = '\\' then
      match rest with
      | [] => false
      | _ :: r2 => strBodyOK q r2
    else decide (c ≠ q) && strBodyOK q rest

/-- A plain identifier: non-empty and made of identifier characters
only. -/
def isPlainIdent (s : String) : Bool :=
  decide (s.data ≠ []) && s.data.all (fun ch => isIdentChar ch)

/-- The braced import clause `\x7b a, b as c, type d \x7d` over arbitrary
identifier names. -/
def importClauseOf (a b c d : String) : Chars :=
  lbr :: ' ' :: (a.data ++ (',' :: ' ' :: (b.data ++
    (' ' :: 'a' :: 's' :: ' ' :: (c.data ++
      (',' :: ' ' :: 't' :: 'y' :: 'p' :: 'e' :: ' ' :: (d.data ++ [' ', rbr])))))))

/-- The complete import statement of claim C2. -/
def importC2 : String := "import \x7b a, b as c, type d \x7d from \x27s\x27;\n"

/-! ## Helper lemmas on the ordering and set primitives -/

theorem mem_insSortedBy (le : α → α → Bool) (x a : α) (l : List α) :
    a ∈ insSortedBy le x l ↔ a = x ∨ a ∈ l := by
  induction l with
  | nil => simp [insSortedBy]
  | cons y t ih =>
    rw [insSortedBy]
    by_cases h : le x y = true
    · rw [if_pos h]
      simp [List.mem_cons]
    · rw [if_neg h]
      simp only [List.mem_cons, ih]
      tauto

theorem mem_sortByFn (le : α → α → Bool) (a : α) (l : List α) :
    a ∈ sortByFn le l ↔ a ∈ l := by
  induction l with
  | nil => simp [sortByFn]
  | cons y t ih =>
    simp only [sortByFn, List.foldr_cons, mem_insSortedBy, List.mem_cons]
    rw [show List.foldr (insSortedBy le) [] t = sortByFn le t from rfl, ih]

theorem sortByFn_eq_nil_iff (le : α → α → Bool) (l : List α) :
    sortByFn le l = [] ↔ l = [] := by
  cases l with
  | nil => simp [sortByFn]
  | cons y t =>
    constructor
    · intro h
      have hy : y ∈ sortByFn le (y :: t) :=
        (mem_sortByFn le y (y :: t)).mpr (List.mem_cons_self y t)
      rw [h] at hy
      simp at hy
    · intro h
      simp at h

theorem mem_dedupAdj [DecidableEq α] (a : α) (l : List α) :
    a ∈ dedupAdj l ↔ a ∈ l := by
  induction l with
  | nil => simp [dedupAdj]
  | cons x t ih =>
    cases t with
    | nil => simp [dedupAdj]
    | cons y t2 =>
      rw [dedupAdj]
      by_cases h : x = y
      · rw [if_pos h]
        rw [ih]
        subst h
        simp [List.mem_cons]
      · rw [if_neg h]
        simp only [List.mem_cons]
        constructor
        · rintro (rfl | hm)
          · exact Or.inl rfl
          · rcases (List.mem_cons.mp (ih.mp hm)) with h2 | h2
            · exact Or.inr (Or.inl h2)
            · exact Or.inr (Or.inr h2)
        · rintro (rfl | h2 | h2)
          · exact Or.inl rfl
          · exact Or.inr (ih.mpr (List.mem_cons.mpr (Or.inl h2)))
          · exact Or.inr (ih.mpr (List.mem_cons.mpr (Or.inr h2)))

theorem dedupAdj_eq_nil_iff [DecidableEq α] (l : List α) :
    dedupAdj l = [] ↔ l = [] := by
  induction l with
  | nil => simp [dedupAdj]
  | cons x t ih =>
    cases t with
    | nil => simp [dedupAdj]
    | cons y t2 =>
      rw [dedupAdj]
      by_cases h : x = y
      · rw [if_pos h, ih]
        simp
      · rw [if_neg h]
        simp

theorem mem_sortDedupStr (a : String) (l : List String) :
    a ∈ sortDedupStr l ↔ a ∈ l := by
  rw [sortDedupStr, mem_dedupAdj, sortStrings, mem_sortByFn]

theorem sortDedupStr_eq_nil_iff (l : List String) :
    sortDedupStr l = [] ↔ l = [] := by
  rw [sortDedupStr, dedupAdj_eq_nil_iff, sortStrings, sortByFn_eq_nil_iff]

theorem mem_insertSet (x a : String) (l : List String) :
    a ∈ insertSet x l ↔ a = x ∨ a ∈ l := by
  by_cases h : l.contains x = true
  · have hx : x ∈ l := by simpa using h
    rw [insertSet, if_pos h]
    constructor
    · exact Or.inr
    · rintro (rfl | hm)
      · exact hx
      · exact hm
  · rw [insertSet, if_neg h]
    simp only [List.mem_append, List.mem_singleton]
    tauto

/-! ## Claim theorems -/

/-- Claim C1: when the unresolved local-import set is non-empty and
low-confidence output was not requested, the report's `unused_files`,
`unused_assets` and `unused_exports` are all empty, while
`unused_dependencies` is computed exactly as in the high-confidence case
(declared dependencies of the requested kinds, minus `@types/`-prefixed
names, minus used packages) — the same value a gate-open run over the
same world produces. -/
theorem c1_confidence_gate (w : SourceWorld) (fl : CliFlags)
    (hunr : unresolvedOf w fl ≠ [])
    (hlc : fl.include_low_confidence = false) :
    (runAnalysis w fl).unused_files = []
    ∧ (runAnalysis w fl).unused_assets = []
    ∧ (runAnalysis w fl).unused_exports = []
    ∧ (runAnalysis w fl).unused_dependencies =
        unusedDependenciesOf w.declaredDeps fl.include_non_prod_deps (usedPackagesOf w fl)
    ∧ (runAnalysis w fl).unused_dependencies =
        (runAnalysis w { fl with include_low_confidence := true }).unused_dependencies := by
  have hempty : (unresolvedOf w fl).isEmpty = false := by
    cases h : unresolvedOf w fl with
    | nil => exact absurd h hunr
    | cons a t => simp
  refine ⟨?_, ?_, ?_, ?_, ?_⟩
  · simp [runAnalysis, hempty, hlc]
  · simp [runAnalysis, hempty, hlc]
  · simp [runAnalysis, hempty, hlc]
  · simp [runAnalysis, unusedDepsOf]
  · simp only [runAnalysis, unusedDepsOf, usedPackagesOf, reachableOf, entriesOf, modulesOf,
      resolverOf]

/-- Claim C10: with the gate closed (unresolved imports present, no
low-confidence opt-in) the summary still reports `used_assets_count`
equal to the total asset count — it is computed as the total minus the
length of the (empty) `unused_assets` list — and a 100 % asset coverage
whenever any asset exists, even though the `used_assets` and
`unused_assets` lists of the same report are empty. -/
theorem c10_gate_closed_asset_counts (w : SourceWorld) (fl : CliFlags)
    (hunr : unresolvedOf w fl ≠ [])
    (hlc : fl.include_low_confidence = false) :
    (runAnalysis w fl).summary.used_assets_count =
        (filterAssetsByRoots w.root w.assets fl.asset_roots).length
    ∧ (runAnalysis w fl).used_assets = []
    ∧ (runAnalysis w fl).unused_assets = []
    ∧ (filterAssetsByRoots w.root w.assets fl.asset_roots ≠ [] →
        (runAnalysis w fl).summary.asset_usage_coverage_pct = 100) := by
  have hempty : (unresolvedOf w fl).isEmpty = false := by
    cases h : unresolvedOf w fl with
    | nil => exact absurd h hunr
    | cons a t => simp
  refine ⟨?_, ?_, ?_, ?_⟩
  · simp [runAnalysis, hempty, hlc]
  · simp [runAnalysis, hempty, hlc]
  · simp [runAnalysis, hempty, hlc]
  · intro hassets
    have hlen : (filterAssetsByRoots w.root w.assets fl.asset_roots).length ≠ 0 := by
      simpa [List.length_eq_zero] using hassets
    have hlenq : ((filterAssetsByRoots w.root w.assets fl.asset_roots).length : ℚ) ≠ 0 := by
      exact_mod_cast hlen
    simp only [runAnalysis, hempty, hlc, Bool.false_or, if_false, List.length_nil,
      Nat.sub_zero, if_neg hlen]
    field_simp

/-- Claim C7: a declared dependency name is reported unused exactly when
it is declared with an eligible kind (`Prod`, or any kind under the
include-non-prod option), does not begin with `@types/`, and is not in
the used-package set; on the concrete two-dependency manifest with
no import sites, the default run reports `["lodash"]` and the non-prod
run `["jest", "lodash"]`. -/
theorem c7_unused_dependencies :
    (∀ (w : SourceWorld) (fl : CliFlags) (n : String),
      n ∈ (runAnalysis w fl).unused_dependencies ↔
        ∃ k, (n, k) ∈ w.declaredDeps
          ∧ strStarts "@types/" n = false
          ∧ (fl.include_non_prod_deps = true ∨ k = DepKind.Prod)
          ∧ n ∉ usedPackagesOf w fl)
    ∧ (runAnalysis wDeps flDefault).unused_dependencies = ["lodash"]
    ∧ (runAnalysis wDeps flNonProd).unused_dependencies = ["jest", "lodash"] := by
  refine ⟨?_, by decide, by decide⟩
  intro w fl n
  have hrun : (runAnalysis w fl).unused_dependencies = unusedDepsOf w fl := by
    simp [runAnalysis]
  rw [hrun, unusedDepsOf, unusedDependenciesOf, sortStrings, mem_sortByFn,
    List.mem_filter, List.mem_map]
  constructor
  · rintro ⟨⟨d, hd, rfl⟩, hused⟩
    have hdf := List.mem_filter.mp hd
    have hpred := hdf.2
    have hty : strStarts "@types/" d.1 = false := by
      cases h2 : strStarts "@types/" d.1 with
      | false => rfl
      | true =>
        rw [if_pos (by simp [h2])] at hpred
        exact absurd hpred (by simp)
    refine ⟨d.2, hdf.1, hty, ?_, by simpa using hused⟩
    cases h1 : fl.include_non_prod_deps with
    | true => exact Or.inl rfl
    | false =>
      right
      rw [if_neg (by simp [hty])] at hpred
      rw [h1] at hpred
      simp only [Bool.not_false, if_true] at hpred
      cases hk : d.2 with
      | Prod => rfl
      | Dev => rw [hk] at hpred; exact absurd hpred (by simp)
      | Peer => rw [hk] at hpred; exact absurd hpred (by simp)
      | Optional => rw [hk] at hpred; exact absurd hpred (by simp)
  · rintro ⟨k, hdecl, hty, hkind, hused⟩
    refine ⟨⟨(n, k), ?_, rfl⟩, by simpa using hused⟩
    apply List.mem_filter.mpr
    refine ⟨hdecl, ?_⟩
    rw [if_neg (by simp [hty])]
    cases h1 : fl.include_non_prod_deps with
    | true => simp
    | false =>
      rcases hkind with h2 | h2
      · rw [h1] at h2
        exact absurd h2 (by simp)
      · subst h2
        simp

/-- Claim C8 (amended): when at least one explicit entry hint resolves,
the discovered entry set is exactly the resolved hints; but when hints
are supplied and none of them resolve, `discover_entries` falls through
to manifest, conventional, framework and test-file discovery instead of
returning the empty set. -/
theorem c8_hints_amended (root : String) (files cliEntries manifestEntries : List String)
    (hne : cliEntries.filterMap
        (fun e => resolveCandidatePath files (joinPath root e)) ≠ []) :
    discoverEntries root files cliEntries manifestEntries =
      sortDedupStr (cliEntries.filterMap (fun e => resolveCandidatePath files (joinPath root e)))
    ∧ ∀ x ∈ discoverEntries root files cliEntries manifestEntries,
        ∃ e ∈ cliEntries, resolveCandidatePath files (joinPath root e) = some x := by
  have hne2 : sortDedupStr (cliEntries.filterMap
      (fun e => resolveCandidatePath files (joinPath root e))) ≠ [] := by
    intro h
    exact hne ((sortDedupStr_eq_nil_iff _).mp h)
  constructor
  · simp [discoverEntries, hne2]
  · intro x hx
    rw [discoverEntries, if_pos (by simpa using hne2)] at hx
    rw [mem_sortDedupStr, List.mem_filterMap] at hx
    exact hx

/-- Claim C8 (counterexample to the claim as stated): with the hint
`nope` supplied and resolving to nothing, the claim requires an empty
entry set with no conventional entries added; the code instead falls
back and discovers the conventional `src/index.ts`. -/
theorem c8_counterexample :
    (["nope"].filterMap (fun e => resolveCandidatePath wConv.files (joinPath wConv.root e))) = []
    ∧ discoverEntries wConv.root wConv.files ["nope"] wConv.manifestEntries =
        ["/r/src/index.ts"]
    ∧ discoverEntries wConv.root wConv.files ["nope"] wConv.manifestEntries ≠ [] := by
  refine ⟨by decide, by decide, by decide⟩

/-- Claim C8 (witness): a hint that resolves is used exclusively. -/
theorem c8_witness :
    discoverEntries wConv.root wConv.files ["src/index.ts"] wConv.manifestEntries =
      sortDedupStr (["src/index.ts"].filterMap
        (fun e => resolveCandidatePath wConv.files (joinPath wConv.root e))) :=
  (c8_hints_amended wConv.root wConv.files ["src/index.ts"] wConv.manifestEntries
    (by decide)).1

/-- Claim C5 (counterexample to the claim as stated): the single
syntactic site `const { a, b: renamed } = require('s')` contributes
two import records for `s` — `REQUIRE_RE` also fires on it (the whitespace
before `require` satisfies its leading context), adding a namespace
record beside the named one. -/
theorem c5_counterexample :
    ((parseModule destructureSite).imports.filter
        (fun r => r.specifier = "s")).length = 2
    ∧ (parseModule destructureSite).imports.any
        (fun r => decide (r.specifier = "s") && r.uses_namespace) = true := by
  refine ⟨by decide, by decide⟩

/-- Claim C5 (amended): such a destructuring-require site contributes
exactly two import records for its specifier: a namespace record from
the plain `require` matcher, followed by a named record whose name set
is the bound names before `:`; shown on two sites with different
binders and specifiers. -/
theorem c5_amended :
    (parseModule destructureSite).imports =
      [{ emptyRecord with specifier := "s", uses_namespace := true },
       { emptyRecord with specifier := "s", names := ["a", "b"] }]
    ∧ (parseModule destructureSite2).imports =
      [{ emptyRecord with specifier := "pkg", uses_namespace := true },
       { emptyRecord with specifier := "pkg", names := ["x", "y"] }] := by
  refine ⟨by decide, by decide⟩


/-! ## Claim C4: lemmas on the bounded traversal -/

theorem remImports_nil (mods : List (String × ModuleInfo)) :
    remImports mods [] = totalImports mods := by
  unfold remImports totalImports
  congr 1
  congr 1
  apply List.filter_eq_self.mpr
  intro a _
  simp

theorem remImports_cons (mods : List (String × ModuleInfo)) (c : String)
    (seen : List String) (hc : c ∉ seen) :
    remImports mods seen = keyImports mods c + remImports mods (c :: seen) := by
  induction mods with
  | nil => rfl
  | cons m rest ih =>
    simp only [remImports, keyImports, List.filter_cons] at ih ⊢
    by_cases h1 : m.1 = c
    · subst h1
      rw [if_pos (decide_eq_true hc), if_pos (by simp), if_neg (by simp)]
      simp only [List.map_cons, List.sum_cons]
      omega
    · have hkey : ¬(decide (m.1 = c) = true) := by simp [h1]
      by_cases h2 : m.1 ∈ seen
      · have hA : ¬(decide (m.1 ∉ seen) = true) := by simp [h2]
        have hB : ¬(decide (m.1 ∉ c :: seen) = true) := by
          simp [decide_eq_true_eq, List.mem_cons, h2]
        rw [if_neg hA, if_neg hkey, if_neg hB]
        exact ih
      · have e1 : decide (m.1 ∉ seen) = true := decide_eq_true h2
        have e3 : decide (m.1 ∉ c :: seen) = true := by
          apply decide_eq_true
          intro hm
          rcases List.mem_cons.mp hm with h4 | h4
          · exact h1 h4
          · exact h2 h4
        rw [if_pos e1, if_neg hkey, if_pos e3]
        simp only [List.map_cons, List.sum_cons]
        omega

theorem lookupMod_imports_le (mods : List (String × ModuleInfo)) (c : String)
    (m : ModuleInfo) (h : lookupMod mods c = some m) :
    m.imports.length ≤ keyImports mods c := by
  induction mods with
  | nil => exact Option.noConfusion h
  | cons x rest ih =>
    unfold lookupMod at h ih
    by_cases h1 : x.1 = c
    · rw [List.find?_cons_of_pos _ (by simpa using h1)] at h
      have hm : x.2 = m := by simpa using h
      subst hm
      simp only [keyImports, List.filter_cons, h1, decide_True, if_true,
        List.map_cons, List.sum_cons]
      omega
    · rw [List.find?_cons_of_neg _ (by simpa using h1)] at h
      have := ih h
      simp only [keyImports, List.filter_cons, h1, decide_False, if_false] at this ⊢
      exact this

theorem reachGoF_seen_sub (R : Resolver) (mods : List (String × ModuleInfo)) :
    ∀ (n : Nat) (seen queue : List String), seen ⊆ reachGoF R mods n seen queue := by
  intro n
  induction n with
  | zero => intro seen queue; exact fun a ha => ha
  | succ k ih =>
    intro seen queue
    cases queue with
    | nil => exact fun a ha => ha
    | cons c q =>
      have hred : reachGoF R mods (k + 1) seen (c :: q) =
          if seen.contains c then reachGoF R mods k seen q
          else reachGoF R mods k (c :: seen) (q ++ nextsOf R mods (c :: seen) c) := rfl
      rw [hred]
      by_cases h : seen.contains c
      · rw [if_pos h]
        exact ih seen q
      · rw [if_neg h]
        intro a ha
        exact ih (c :: seen) _ (List.mem_cons_of_mem _ ha)

theorem reachGoF_closure (R : Resolver) (mods : List (String × ModuleInfo)) :
    ∀ (n : Nat) (seen queue : List String),
      queue.length + remImports mods seen + 1 ≤ n →
      (∀ f ∈ seen, ∀ t, importEdge R mods f t → t ∈ seen ∨ t ∈ queue) →
      (∀ x ∈ queue, x ∈ reachGoF R mods n seen queue) ∧
      (∀ f ∈ reachGoF R mods n seen queue, ∀ t, importEdge R mods f t →
        t ∈ reachGoF R mods n seen queue) := by
  intro n
  induction n with
  | zero => intro seen queue hfuel hinv; omega
  | succ k ih =>
    intro seen queue hfuel hinv
    cases queue with
    | nil =>
      have hred : reachGoF R mods (k + 1) seen [] = seen := rfl
      rw [hred]
      refine ⟨?_, ?_⟩
      · intro x hx; simp at hx
      · intro f hf t ht
        rcases hinv f hf t ht with h | h
        · exact h
        · simp at h
    | cons c q =>
      have hred : reachGoF R mods (k + 1) seen (c :: q) =
          if seen.contains c then reachGoF R mods k seen q
          else reachGoF R mods k (c :: seen) (q ++ nextsOf R mods (c :: seen) c) := rfl
      by_cases hc : seen.contains c
      · have hcs : c ∈ seen := by simpa using hc
        rw [hred, if_pos hc]
        have hfuel2 : q.length + remImports mods seen + 1 ≤ k := by
          simp only [List.length_cons] at hfuel; omega
        have hinv2 : ∀ f ∈ seen, ∀ t, importEdge R mods f t → t ∈ seen ∨ t ∈ q := by
          intro f hf t ht
          rcases hinv f hf t ht with h | h
          · exact Or.inl h
          · rcases List.mem_cons.mp h with rfl | h2
            · exact Or.inl hcs
            · exact Or.inr h2
        have main := ih seen q hfuel2 hinv2
        refine ⟨?_, main.2⟩
        intro x hx
        rcases List.mem_cons.mp hx with rfl | h2
        · exact reachGoF_seen_sub R mods k seen q hcs
        · exact main.1 x h2
      · have hcs : c ∉ seen := by simpa using hc
        rw [hred, if_neg hc]
        have hnextlen : (nextsOf R mods (c :: seen) c).length ≤ keyImports mods c := by
          rcases hlm : lookupMod mods c with _ | m
          · simp [nextsOf, hlm]
          · have h1 : (nextsOf R mods (c :: seen) c).length ≤ m.imports.length := by
              rw [nextsOf, hlm]
              exact List.length_filterMap_le _ _
            exact le_trans h1 (lookupMod_imports_le mods c m hlm)
        have hrem := remImports_cons mods c seen hcs
        have hfuel2 : (q ++ nextsOf R mods (c :: seen) c).length
            + remImports mods (c :: seen) + 1 ≤ k := by
          rw [List.length_append]
          simp only [List.length_cons] at hfuel
          omega
        have hinv2 : ∀ f ∈ c :: seen, ∀ t, importEdge R mods f t →
            t ∈ c :: seen ∨ t ∈ q ++ nextsOf R mods (c :: seen) c := by
          intro f hf t ht
          rcases List.mem_cons.mp hf with rfl | hfs
          · unfold importEdge at ht
            rcases ht with ⟨m, hlm, imp, himp, hres⟩
            by_cases hts : t ∈ f :: seen
            · exact Or.inl hts
            · right
              apply List.mem_append.mpr
              right
              rw [nextsOf, hlm]
              apply List.mem_filterMap.mpr
              refine ⟨imp, himp, ?_⟩
              simp only [hres]
              rw [if_neg (by simpa using hts)]
          · rcases hinv f hfs t ht with h | h
            · exact Or.inl (List.mem_cons_of_mem _ h)
            · rcases List.mem_cons.mp h with rfl | h2
              · exact Or.inl (List.mem_cons_self _ _)
              · exact Or.inr (List.mem_append.mpr (Or.inl h2))
        have main := ih (c :: seen) (q ++ nextsOf R mods (c :: seen) c) hfuel2 hinv2
        refine ⟨?_, main.2⟩
        intro x hx
        rcases List.mem_cons.mp hx with rfl | h2
        · exact reachGoF_seen_sub R mods k _ _ (List.mem_cons_self _ _)
        · exact main.1 x (List.mem_append.mpr (Or.inl h2))

/-- Claim C4: the set computed by the reachability traversal contains
every entry and is closed under resolvable imports — whenever a file of
the set has an import record (side-effect and re-export records
included) whose specifier resolves to a target, the target is in the
set. -/
theorem c4_reachability_closure (entries : List String)
    (mods : List (String × ModuleInfo)) (R : Resolver) :
    (∀ e ∈ entries, e ∈ reachableFiles entries mods R)
    ∧ (∀ f ∈ reachableFiles entries mods R, ∀ t, importEdge R mods f t →
        t ∈ reachableFiles entries mods R) := by
  have hfuel : entries.length + remImports mods [] + 1 ≤
      entries.length + totalImports mods + 1 := by
    rw [remImports_nil]
  have hinv : ∀ f ∈ ([] : List String), ∀ t, importEdge R mods f t →
      t ∈ ([] : List String) ∨ t ∈ entries := by
    intro f hf; simp at hf
  have main := reachGoF_closure R mods (entries.length + totalImports mods + 1)
    [] entries hfuel hinv
  exact ⟨main.1, main.2⟩


/-! ## Claim C6: alias resolution order -/

theorem findSome?_skip {α β : Type} (f : α → Option β) (pre l2 : List α)
    (hpre : ∀ q ∈ pre, f q = none) :
    (pre ++ l2).findSome? f = l2.findSome? f := by
  induction pre with
  | nil => rfl
  | cons a pres ih =>
    have ha := hpre a (List.mem_cons_self _ _)
    rw [List.cons_append, List.findSome?_cons, ha]
    exact ih (fun q hq => hpre q (List.mem_cons_of_mem _ hq))

/-- Claim C6 (amended): for a non-relative, non-root-absolute specifier,
alias resolution is decided by the first rule in rule order whose key
matches AND whose substituted target resolves; a matching rule whose
target fails to resolve is skipped and later rules are consulted. -/
theorem c6_alias_resolution (R : Resolver) (fromFile spec n : String)
    (pre post : List AliasRule) (r : AliasRule) (p : String)
    (hn : normalizeSpecifier spec = n)
    (hne : n ≠ "")
    (hrel : isRelativeSpecifier n = false)
    (habs : strStarts "/" n = false)
    (hrules : R.alias_rules = pre ++ r :: post)
    (hpre : ∀ q ∈ pre, aliasAttempt R.files q n = none)
    (hr : aliasAttempt R.files r n = some p) :
    R.resolveSpecifier fromFile spec = some p := by
  have hbody : R.resolveSpecifier fromFile spec =
      (if n = "" then none
       else if isRelativeSpecifier n then
         resolveCandidatePath R.files (joinPath (parentDir fromFile) n)
       else if strStarts "/" n then
         resolveCandidatePath R.files (joinPath R.root (String.mk (n.data.drop 1)))
       else
         match R.alias_rules.findSome? (fun q => aliasAttempt R.files q n) with
         | some p => some p
         | none =>
           if !(looksLikePackageSpecifier n) then
             R.base_dirs.findSome? (fun b => resolveCandidatePath R.files (joinPath b n))
           else none) := by
    rw [← hn]
    rfl
  rw [hbody, if_neg hne, if_neg (by simp [hrel]), if_neg (by simp [habs])]
  have hfind : R.alias_rules.findSome? (fun q => aliasAttempt R.files q n) = some p := by
    rw [hrules, findSome?_skip _ pre _ hpre, List.findSome?_cons, hr]
  rw [hfind]

/-- Claim C6 (counterexample to the claim as stated): on a resolver with
two rules of key `@/*`, the first rule's key matches the specifier `@/x`
but its target resolves to nothing, so the first-matching-rule reading of
the claim yields no resolution — yet the code resolves through the
second rule. -/
theorem c6_counterexample :
    (matchAlias "@/*" "@/x").isSome = true
    ∧ aliasAttempt rTwoRules.files
        { key := "@/*", target := "./a/*", base_dir := "/r" } "@/x" = none
    ∧ specAliasFirstMatch rTwoRules.files rTwoRules.alias_rules "@/x" = none
    ∧ rTwoRules.resolveSpecifier "/r/e.ts" "@/x" = some "/r/b/x.ts" :=
  ⟨by decide, by decide, by decide, by decide⟩

/-- Claim C6 (witness): the amended theorem applied to the two-rule
resolver — the second rule is the first whose target also resolves. -/
theorem c6_witness :
    rTwoRules.resolveSpecifier "/r/e.ts" "@/x" = some "/r/b/x.ts" :=
  c6_alias_resolution rTwoRules "/r/e.ts" "@/x" "@/x"
    [{ key := "@/*", target := "./a/*", base_dir := "/r" }] []
    { key := "@/*", target := "./b/*", base_dir := "/r" } "/r/b/x.ts"
    (by decide) (by decide) (by decide) (by decide) (by decide)
    (by decide) (by decide)

/-! ## Witnesses for the gate claims -/

/-- Claim C1 (witness): the confidence-gate theorem at the concrete
closed-gate world `wGate`. -/
theorem c1_witness :
    (runAnalysis wGate flGate).unused_files = []
    ∧ (runAnalysis wGate flGate).unused_assets = []
    ∧ (runAnalysis wGate flGate).unused_exports = []
    ∧ (runAnalysis wGate flGate).unused_dependencies =
        unusedDependenciesOf wGate.declaredDeps flGate.include_non_prod_deps
          (usedPackagesOf wGate flGate)
    ∧ (runAnalysis wGate flGate).unused_dependencies =
        (runAnalysis wGate
          { flGate with include_low_confidence := true }).unused_dependencies :=
  c1_confidence_gate wGate flGate (by decide) (by decide)

/-- Claim C10 (witness): the closed-gate asset-count theorem at `wGate`,
whose single asset yields a 100 % coverage claim beside empty asset
lists. -/
theorem c10_witness :
    (runAnalysis wGate flGate).summary.used_assets_count =
        (filterAssetsByRoots wGate.root wGate.assets flGate.asset_roots).length
    ∧ (runAnalysis wGate flGate).used_assets = []
    ∧ (runAnalysis wGate flGate).unused_assets = []
    ∧ (runAnalysis wGate flGate).summary.asset_usage_coverage_pct = 100 := by
  have h := c10_gate_closed_asset_counts wGate flGate (by decide) (by decide)
  exact ⟨h.1, h.2.1, h.2.2.1, h.2.2.2 (by decide)⟩


/-! ## Claim C9: the lexical stripper -/

theorem countNl_cons (c : Char) (l : Chars) :
    countNl (c :: l) = (if c = Char.ofNat 10 then 1 else 0) + countNl l := by
  simp only [countNl, List.filter_cons]
  by_cases h : c = Char.ofNat 10
  · simp [h]
    omega
  · simp [h]

theorem scGo_countNl (mode : ScMode) (l : Chars) :
    countNl (scGo mode l) = countNl l := by
  induction mode, l using scGo.induct <;>
    simp_all [scGo, countNl_cons] <;> omega

theorem scGo_lineC (body rest : Chars) (h : Char.ofNat 10 ∉ body) :
    scGo .lineC (body ++ Char.ofNat 10 :: rest) =
      Char.ofNat 10 :: scGo .normal rest := by
  induction body with
  | nil => simp [scGo]
  | cons c cs ih =>
    have hc : c ≠ Char.ofNat 10 := fun he => h (he ▸ List.mem_cons_self c cs)
    rw [List.cons_append]
    have hstep : scGo .lineC (c :: (cs ++ Char.ofNat 10 :: rest)) =
        scGo .lineC (cs ++ Char.ofNat 10 :: rest) := by
      simp [scGo, hc]
    rw [hstep]
    exact ih (fun hm => h (List.mem_cons_of_mem _ hm))

theorem scGo_line_comment (body rest : Chars) (h : Char.ofNat 10 ∉ body) :
    scGo .normal ('/' :: '/' :: (body ++ Char.ofNat 10 :: rest)) =
      Char.ofNat 10 :: scGo .normal rest := by
  rw [show scGo .normal ('/' :: '/' :: (body ++ Char.ofNat 10 :: rest)) =
      scGo .lineC (body ++ Char.ofNat 10 :: rest) from rfl]
  exact scGo_lineC body rest h

theorem scGo_blockC_step (c c2 : Char) (r : Chars) (hcs : ¬(c = '*' ∧ c2 = '/')) :
    scGo .blockC (c :: c2 :: r) =
      (if c = Char.ofNat 10 then [Char.ofNat 10] else []) ++ scGo .blockC (c2 :: r) := by
  by_cases h1 : c = '*'
  · subst h1
    have h2 : c2 ≠ '/' := fun h => hcs ⟨rfl, h⟩
    simp [scGo, h2]
  · by_cases h4 : c = Char.ofNat 10
    · subst h4
      simp [scGo]
    · simp [scGo, h1, h4]

theorem scGo_blockC (body rest : Chars) (h : containsSub ('*' :: '/' :: []) body = false) :
    scGo .blockC (body ++ '*' :: '/' :: rest) =
      body.filter (fun c => c = Char.ofNat 10) ++ scGo .normal rest := by
  induction body with
  | nil => simp [scGo]
  | cons c cs ih =>
    have hsub : containsSub ('*' :: '/' :: []) cs = false := by
      simp only [containsSub, Bool.or_eq_false_iff] at h
      exact h.2
    have hpre : isPre ('*' :: '/' :: []) (c :: cs) = false := by
      simp only [containsSub, Bool.or_eq_false_iff] at h
      exact h.1
    have hcc : ∀ c2 r2, c :: cs = c2 :: r2 → ¬(c = '*' ∧ r2.head? = some '/') := by
      intro c2 r2 he hand
      rcases hand with ⟨rfl, hh⟩
      cases he
      cases cs with
      | nil => simp at hh
      | cons d ds =>
        simp at hh
        subst hh
        simp [isPre] at hpre
    rw [List.cons_append]
    cases cs with
    | nil =>
      have hstep := scGo_blockC_step c '*' ('/' :: rest)
        (fun hand => by
          rcases hand with ⟨_, hstar⟩
          exact absurd hstar (by decide))
      rw [show ([] : Chars) ++ '*' :: '/' :: rest = '*' :: '/' :: rest from rfl] at *
      rw [hstep]
      simp [scGo, List.filter_cons]
      by_cases hc : c = Char.ofNat 10
      · simp [hc]
      · simp [hc]
    | cons d ds =>
      have hnd : ¬(c = '*' ∧ d = '/') := by
        intro hand
        rcases hand with ⟨rfl, rfl⟩
        simp [isPre] at hpre
      rw [show (d :: ds) ++ '*' :: '/' :: rest = d :: (ds ++ '*' :: '/' :: rest) from rfl]
      have hstep := scGo_blockC_step c d (ds ++ '*' :: '/' :: rest) hnd
      rw [hstep]
      rw [show d :: (ds ++ '*' :: '/' :: rest) = (d :: ds) ++ '*' :: '/' :: rest from rfl]
      rw [ih hsub]
      rw [List.filter_cons]
      by_cases hc : c = Char.ofNat 10
      · simp [hc, List.filter_cons]
      · simp [hc, List.filter_cons]

theorem scGo_block_comment (body rest : Chars)
    (h : containsSub ('*' :: '/' :: []) body = false) :
    scGo .normal ('/' :: '*' :: (body ++ '*' :: '/' :: rest)) =
      body.filter (fun c => c = Char.ofNat 10) ++ scGo .normal rest := by
  rw [show scGo .normal ('/' :: '*' :: (body ++ '*' :: '/' :: rest)) =
      scGo .blockC (body ++ '*' :: '/' :: rest) from rfl]
  exact scGo_blockC body rest h

theorem scGo_strGo (q : Char) (hqb : q ≠ '\\') :
    ∀ (n : Nat) (body : Chars), body.length ≤ n → strBodyOK q body = true →
      ∀ rest, scGo (.str q) (body ++ q :: rest) = body ++ q :: scGo .normal rest := by
  intro n
  induction n with
  | zero =>
    intro body hlen hok rest
    have hnil : body = [] := List.eq_nil_of_length_eq_zero (Nat.le_zero.mp hlen)
    subst hnil
    simp [scGo, hqb]
  | succ k ih =>
    intro body hlen hok rest
    cases body with
    | nil => simp [scGo, hqb]
    | cons c rest2 =>
      by_cases hc : c = '\\'
      · subst hc
        cases rest2 with
        | nil => simp [strBodyOK] at hok
        | cons d r2 =>
          have hok2 : strBodyOK q r2 = true := by simpa [strBodyOK] using hok
          have hlen2 : r2.length ≤ k := by simp at hlen; omega
          rw [show ('\\' :: d :: r2) ++ q :: rest = '\\' :: d :: (r2 ++ q :: rest) from rfl]
          rw [show scGo (.str q) ('\\' :: d :: (r2 ++ q :: rest)) =
              '\\' :: d :: scGo (.str q) (r2 ++ q :: rest) from rfl]
          rw [ih r2 hlen2 hok2 rest]
          rfl
      · unfold strBodyOK at hok
        rw [if_neg hc, Bool.and_eq_true] at hok
        have hcq : c ≠ q := by simpa using hok.1
        have hlen2 : rest2.length ≤ k := by simp at hlen; omega
        rw [List.cons_append]
        have hstep : scGo (.str q) (c :: (rest2 ++ q :: rest)) =
            c :: scGo (.str q) (rest2 ++ q :: rest) := by
          simp [scGo, hc, hcq]
        rw [hstep, ih rest2 hlen2 hok.2 rest]
        rfl

theorem scGo_string_literal (q : Char) (body rest : Chars)
    (hq : q = quoteS ∨ q = quoteD ∨ q = quoteB) (h : strBodyOK q body = true) :
    scGo .normal (q :: (body ++ q :: rest)) = q :: (body ++ q :: scGo .normal rest) := by
  have hqb : q ≠ '\\' := by rcases hq with rfl | rfl | rfl <;> decide
  have hopen : scGo .normal (q :: (body ++ q :: rest)) =
      q :: scGo (.str q) (body ++ q :: rest) := by
    rcases hq with rfl | rfl | rfl <;> simp [scGo]
  rw [hopen, scGo_strGo q hqb body.length body le_rfl h rest]

/-- Claim C9: `strip_comments` preserves the newline count of every
input; removes a `//…` line comment up to its terminating newline,
keeping that newline; removes a terminated `/*…*/` block comment while
keeping exactly the newlines of its interior; and copies a terminated
string literal (escape sequences included) character for character,
scanning on in the ordinary state after each construct. -/
theorem c9_strip_comments :
    (∀ l : Chars, countNl (stripComments l) = countNl l)
    ∧ (∀ body rest : Chars, Char.ofNat 10 ∉ body →
        scGo ScMode.normal ('/' :: '/' :: (body ++ Char.ofNat 10 :: rest)) =
          Char.ofNat 10 :: scGo ScMode.normal rest)
    ∧ (∀ body rest : Chars, containsSub ('*' :: '/' :: []) body = false →
        scGo ScMode.normal ('/' :: '*' :: (body ++ '*' :: '/' :: rest)) =
          body.filter (fun c => c = Char.ofNat 10) ++ scGo ScMode.normal rest)
    ∧ (∀ (q : Char) (body rest : Chars),
        q = quoteS ∨ q = quoteD ∨ q = quoteB → strBodyOK q body = true →
        scGo ScMode.normal (q :: (body ++ q :: rest)) =
          q :: (body ++ q :: scGo ScMode.normal rest)) :=
  ⟨fun l => scGo_countNl ScMode.normal l,
   scGo_line_comment, scGo_block_comment, scGo_string_literal⟩


/-! ## Claim C2: character-class and trim lemmas -/

theorem identChar_not_ws (ch : Char) (h : isIdentChar ch = true) : isWsC ch = false := by
  cases hw : isWsC ch
  · rfl
  · exfalso
    unfold isWsC at hw
    simp only [Bool.or_eq_true, decide_eq_true_eq, or_assoc] at hw
    rcases hw with rfl | rfl | rfl | rfl | rfl | rfl <;> exact absurd h (by decide)

theorem identChar_ne (ch x : Char) (h : isIdentChar ch = true)
    (hx : isIdentChar x = false) : ch ≠ x := by
  intro he
  subst he
  rw [h] at hx
  exact Bool.noConfusion hx

theorem plainIdent_ne_nil (s : String) (hs : isPlainIdent s = true) : s.data ≠ [] := by
  unfold isPlainIdent at hs
  rw [Bool.and_eq_true] at hs
  simpa using hs.1

theorem plainIdent_all (s : String) (hs : isPlainIdent s = true) :
    ∀ ch ∈ s.data, isIdentChar ch = true := by
  unfold isPlainIdent at hs
  rw [Bool.and_eq_true] at hs
  intro ch hch
  have := hs.2
  rw [List.all_eq_true] at this
  simpa using this ch hch

theorem dropWhile_eq_self_of_head (p : Char → Bool) (l : Chars)
    (hl : ∀ ch ∈ l.head?, p ch = false) : l.dropWhile p = l := by
  cases l with
  | nil => rfl
  | cons ch cs =>
    have h := hl ch (by simp)
    rw [List.dropWhile_cons_of_neg (by simp [h])]

theorem trimL_eq_self (l : Chars) (hl : ∀ ch ∈ l.head?, isWsC ch = false) :
    trimL l = l :=
  dropWhile_eq_self_of_head _ l hl

theorem trimR_eq_self (l : Chars) (hl : ∀ ch ∈ l.getLast?, isWsC ch = false) :
    trimR l = l := by
  unfold trimR
  rw [dropWhile_eq_self_of_head _ l.reverse (by
    intro ch hch
    rw [List.head?_reverse] at hch
    exact hl ch hch), List.reverse_reverse]

theorem trimC_eq_self (l : Chars) (h1 : ∀ ch ∈ l.head?, isWsC ch = false)
    (h2 : ∀ ch ∈ l.getLast?, isWsC ch = false) : trimC l = l := by
  unfold trimC
  rw [trimR_eq_self l h2, trimL_eq_self l h1]

theorem trimL_ws_cons (ch : Char) (l : Chars) (h : isWsC ch = true) :
    trimL (ch :: l) = trimL l := by
  unfold trimL
  rw [List.dropWhile_cons_of_pos (by simp [h])]

theorem trimR_ws_concat (l : Chars) (ch : Char) (h : isWsC ch = true) :
    trimR (l ++ [ch]) = trimR l := by
  unfold trimR
  rw [show (l ++ [ch]).reverse = ch :: l.reverse by simp,
    List.dropWhile_cons_of_pos (by simp [h])]

theorem trimTrail_concat_self (m : Char) (l : Chars) :
    trimTrailChar m (l ++ [m]) = trimTrailChar m l := by
  unfold trimTrailChar
  rw [show (l ++ [m]).reverse = m :: l.reverse by simp,
    List.dropWhile_cons_of_pos (by simp)]

theorem trimTrail_eq_self (m : Char) (l : Chars)
    (h : ∀ ch ∈ l.getLast?, ch ≠ m) : trimTrailChar m l = l := by
  unfold trimTrailChar
  rw [dropWhile_eq_self_of_head _ l.reverse (by
    intro ch hch
    rw [List.head?_reverse] at hch
    simp [h ch hch]), List.reverse_reverse]

theorem containsSub_head_not_mem (p0 : Char) (pr l : Chars)
    (h : ∀ ch ∈ l, ch ≠ p0) : containsSub (p0 :: pr) l = false := by
  induction l with
  | nil => rfl
  | cons ch cs ih =>
    have hc : ch ≠ p0 := h ch (List.mem_cons_self _ _)
    have hpre : isPre (p0 :: pr) (ch :: cs) = false := by
      show (decide (p0 = ch) && isPre pr cs) = false
      simp [Ne.symm hc]
    show (isPre (p0 :: pr) (ch :: cs) || containsSub (p0 :: pr) cs) = false
    rw [hpre, Bool.false_or]
    exact ih (fun x hx => h x (List.mem_cons_of_mem _ hx))

theorem isPre_count (p : Chars) (ch : Char) :
    ∀ l, isPre p l = true → p.count ch ≤ l.count ch := by
  induction p with
  | nil => intro l _; simp
  | cons p0 ps ih =>
    intro l h
    cases l with
    | nil => exact Bool.noConfusion h
    | cons c0 cs =>
      unfold isPre at h
      rw [Bool.and_eq_true] at h
      have h0 : p0 = c0 := by simpa using h.1
      subst h0
      have := ih cs h.2
      simp only [List.count_cons]
      omega

theorem splitOnceSub_count_none (p : Chars) (ch : Char) :
    ∀ l, l.count ch < p.count ch → splitOnceSub p l = none := by
  intro l
  induction l with
  | nil => intro _; rfl
  | cons c0 cs ih =>
    intro hlt
    unfold splitOnceSub
    have hpre : isPre p (c0 :: cs) = false := by
      cases hp : isPre p (c0 :: cs)
      · rfl
      · exact absurd (isPre_count p ch _ hp) (by omega)
    rw [if_neg (by simp [hpre])]
    have hcs : cs.count ch < p.count ch := by
      have := List.count_cons ch c0 cs
      simp only [List.count_cons] at hlt
      omega
    rw [ih hcs]
    rfl

theorem isPre_append_self (p y : Chars) : isPre p (p ++ y) = true := by
  induction p with
  | nil => rfl
  | cons p0 ps ih =>
    rw [List.cons_append]
    show (decide (p0 = p0) && isPre ps (ps ++ y)) = true
    simp [ih]

theorem splitOnceSub_boundary (p0 : Char) (pr y : Chars) :
    ∀ x, (∀ ch ∈ x, ch ≠ p0) →
      splitOnceSub (p0 :: pr) (x ++ p0 :: (pr ++ y)) = some (x, y) := by
  intro x
  induction x with
  | nil =>
    intro _
    rw [List.nil_append]
    show (if isPre (p0 :: pr) (p0 :: (pr ++ y)) = true
        then some (([] : Chars), (p0 :: (pr ++ y)).drop (p0 :: pr).length)
        else (splitOnceSub (p0 :: pr) (pr ++ y)).map (fun p => (p0 :: p.1, p.2)))
      = some ([], y)
    rw [if_pos (show isPre (p0 :: pr) (p0 :: (pr ++ y)) = true by
      have := isPre_append_self (p0 :: pr) y
      rwa [List.cons_append] at this)]
    simp
  | cons c0 cs ih =>
    intro h
    have hc : c0 ≠ p0 := h c0 (List.mem_cons_self _ _)
    rw [List.cons_append]
    show (if isPre (p0 :: pr) (c0 :: (cs ++ p0 :: (pr ++ y))) = true
        then some (([] : Chars), (c0 :: (cs ++ p0 :: (pr ++ y))).drop (p0 :: pr).length)
        else (splitOnceSub (p0 :: pr) (cs ++ p0 :: (pr ++ y))).map
          (fun p => (c0 :: p.1, p.2)))
      = some (c0 :: cs, y)
    have hpre : isPre (p0 :: pr) (c0 :: (cs ++ p0 :: (pr ++ y))) = false := by
      show (decide (p0 = c0) && isPre pr (cs ++ p0 :: (pr ++ y))) = false
      simp [Ne.symm hc]
    rw [if_neg (by simp [hpre]), ih (fun ch hch => h ch (List.mem_cons_of_mem _ hch))]
    rfl

theorem splitOnChar_not_mem (sep : Char) (l : Chars) (h : ∀ ch ∈ l, ch ≠ sep) :
    splitOnChar sep l = [l] := by
  induction l with
  | nil => rfl
  | cons c0 cs ih =>
    have hc : c0 ≠ sep := h c0 (List.mem_cons_self _ _)
    show (if c0 = sep then [] :: splitOnChar sep cs
        else match splitOnChar sep cs with
          | piece :: t => (c0 :: piece) :: t
          | [] => [[c0]])
      = [c0 :: cs]
    rw [if_neg hc, ih (fun ch hch => h ch (List.mem_cons_of_mem _ hch))]

theorem splitOnChar_append (sep : Char) (y : Chars) :
    ∀ x, (∀ ch ∈ x, ch ≠ sep) →
      splitOnChar sep (x ++ sep :: y) = x :: splitOnChar sep y := by
  intro x
  induction x with
  | nil =>
    intro _
    rw [List.nil_append]
    show (if sep = sep then [] :: splitOnChar sep y
        else match splitOnChar sep y with
          | piece :: t => (sep :: piece) :: t
          | [] => [[sep]])
      = [] :: splitOnChar sep y
    rw [if_pos rfl]
  | cons c0 cs ih =>
    intro h
    have hc : c0 ≠ sep := h c0 (List.mem_cons_self _ _)
    rw [List.cons_append]
    show (if c0 = sep then [] :: splitOnChar sep (cs ++ sep :: y)
        else match splitOnChar sep (cs ++ sep :: y) with
          | piece :: t => (c0 :: piece) :: t
          | [] => [[c0]])
      = (c0 :: cs) :: splitOnChar sep y
    rw [if_neg hc, ih (fun ch hch => h ch (List.mem_cons_of_mem _ hch))]

theorem isPre_mem (p l : Chars) (hp : isPre p l = true) : ∀ ch ∈ p, ch ∈ l := by
  induction p generalizing l with
  | nil => intro ch hch; simp at hch
  | cons p0 ps ih =>
    intro ch hch
    cases l with
    | nil => exact Bool.noConfusion hp
    | cons c0 cs =>
      unfold isPre at hp
      rw [Bool.and_eq_true] at hp
      have h0 : p0 = c0 := by simpa using hp.1
      rcases List.mem_cons.mp hch with rfl | hch2
      · rw [h0]; exact List.mem_cons_self _ _
      · exact List.mem_cons_of_mem _ (ih cs hp.2 ch hch2)

theorem trimLeadSubGo_no_space (n : Nat) (l : Chars) (h : (' ' : Char) ∉ l) :
    trimLeadSubGo "type ".data n l = l := by
  cases n with
  | zero => rfl
  | succ k =>
    unfold trimLeadSubGo
    have hpre : isPre "type ".data l = false := by
      cases hp : isPre "type ".data l
      · rfl
      · exfalso
        apply h
        have hm : ∀ ch ∈ "type ".data, ch ∈ l := by
          intro ch hch
          exact isPre_mem "type ".data l hp ch hch
        exact hm ' ' (by decide)
    simp [hpre]

theorem insertSet_not_mem (x : String) (l : List String) (h : x ∉ l) :
    insertSet x l = l ++ [x] := by
  unfold insertSet
  rw [if_neg (by simpa using h)]


/-! ## Claim C2: evaluation of the export-name accumulation step -/

theorem plainIdent_no_space (s : String) (hs : isPlainIdent s = true) :
    (' ' : Char) ∉ s.data := by
  intro hm
  have := plainIdent_all s hs ' ' hm
  exact absurd this (by decide)

theorem plainIdent_head_ws (s : String) (hs : isPlainIdent s = true) :
    ∀ ch ∈ s.data.head?, isWsC ch = false := by
  intro ch hch
  exact identChar_not_ws ch (plainIdent_all s hs ch (List.mem_of_mem_head? hch))

theorem last_ws_of_append_ident (pre : Chars) (s : String)
    (hs : isPlainIdent s = true) :
    ∀ ch ∈ (pre ++ s.data).getLast?, isWsC ch = false := by
  intro ch hch
  rcases List.eq_nil_or_concat s.data with hd | ⟨front, lst, hd⟩
  · exact absurd hd (plainIdent_ne_nil s hs)
  · rw [List.concat_eq_append] at hd
    rw [hd, ← List.append_assoc, List.getLast?_concat] at hch
    simp at hch
    subst hch
    exact identChar_not_ws lst (plainIdent_all s hs lst (by rw [hd]; simp))

theorem head_ws_of_ident_append (s : String) (hs : isPlainIdent s = true)
    (suf : Chars) : ∀ ch ∈ (s.data ++ suf).head?, isWsC ch = false := by
  intro ch hch
  cases hd : s.data with
  | nil => exact absurd hd (plainIdent_ne_nil s hs)
  | cons c0 cs =>
    rw [hd, List.cons_append] at hch
    simp at hch
    subst hch
    exact identChar_not_ws c0
      (plainIdent_all s hs c0 (by rw [hd]; exact List.mem_cons_self _ _))

theorem plainIdent_last_ws (s : String) (hs : isPlainIdent s = true) :
    ∀ ch ∈ s.data.getLast?, isWsC ch = false := by
  intro ch hch
  exact last_ws_of_append_ident [] s hs ch (by rwa [List.nil_append])

theorem trimC_ident (s : String) (hs : isPlainIdent s = true) :
    trimC s.data = s.data :=
  trimC_eq_self s.data (plainIdent_head_ws s hs) (plainIdent_last_ws s hs)

theorem trimC_ws_ident (s : String) (hs : isPlainIdent s = true) :
    trimC (' ' :: s.data) = s.data := by
  unfold trimC
  have hR : trimR (' ' :: s.data) = ' ' :: s.data := by
    apply trimR_eq_self
    intro ch hch
    exact last_ws_of_append_ident [' '] s hs ch hch
  rw [hR, trimL_ws_cons ' ' s.data (by decide)]
  exact trimL_eq_self s.data (plainIdent_head_ws s hs)

theorem ident_count_space (s : String) (hs : isPlainIdent s = true) :
    s.data.count ' ' = 0 :=
  List.count_eq_zero.mpr (plainIdent_no_space s hs)

theorem splitAs_ident_none (s : String) (hs : isPlainIdent s = true) :
    splitOnceSub " as ".data s.data = none := by
  apply splitOnceSub_count_none " as ".data ' '
  rw [ident_count_space s hs]
  decide

theorem trimLeadSub_ident (s : String) (hs : isPlainIdent s = true) :
    trimLeadSub "type ".data s.data = s.data := by
  unfold trimLeadSub
  exact trimLeadSubGo_no_space _ _ (plainIdent_no_space s hs)

theorem penStep_ident_pad (s : String) (hs : isPlainIdent s = true)
    (out : List String) :
    penStep out (' ' :: s.data) = insertSet s out := by
  unfold penStep
  simp only [trimC_ws_ident s hs]
  rw [if_neg (plainIdent_ne_nil s hs)]
  by_cases hdef : s.data = "default".data
  · rw [if_pos hdef]
    have hseq : s = "default" := by
      have h2 : String.mk s.data = String.mk "default".data := by rw [hdef]
      exact h2
    rw [hseq]
  · rw [if_neg hdef]
    simp only [splitAs_ident_none s hs, trimLeadSub_ident s hs, trimC_ident s hs]
    rw [if_neg (plainIdent_ne_nil s hs)]

theorem penStep_as (x y : String) (hx : isPlainIdent x = true)
    (hy : isPlainIdent y = true) (out : List String) :
    penStep out (' ' :: (x.data ++ (' ' :: 'a' :: 's' :: ' ' :: y.data))) =
      insertSet y out := by
  have hxall := plainIdent_all x hx
  have hpart : trimC (' ' :: (x.data ++ (' ' :: 'a' :: 's' :: ' ' :: y.data))) =
      x.data ++ (' ' :: 'a' :: 's' :: ' ' :: y.data) := by
    unfold trimC
    have hR : trimR (' ' :: (x.data ++ (' ' :: 'a' :: 's' :: ' ' :: y.data))) =
        ' ' :: (x.data ++ (' ' :: 'a' :: 's' :: ' ' :: y.data)) := by
      apply trimR_eq_self
      intro ch hch
      apply last_ws_of_append_ident (' ' :: (x.data ++ [' ', 'a', 's', ' '])) y hy ch
      have he : (' ' :: (x.data ++ [' ', 'a', 's', ' '])) ++ y.data
          = ' ' :: (x.data ++ (' ' :: 'a' :: 's' :: ' ' :: y.data)) := by simp
      rw [he]
      exact hch
    rw [hR, trimL_ws_cons ' ' _ (by decide)]
    exact trimL_eq_self _ (head_ws_of_ident_append x hx _)
  unfold penStep
  simp only [hpart]
  rw [if_neg (List.append_ne_nil_of_left_ne_nil (plainIdent_ne_nil x hx) _)]
  rw [if_neg (by
    intro he
    have hsp : (' ' : Char) ∈ x.data ++ (' ' :: 'a' :: 's' :: ' ' :: y.data) := by
      apply List.mem_append.mpr
      right
      exact List.mem_cons_self _ _
    rw [he] at hsp
    exact absurd hsp (by decide))]
  have hsplit : splitOnceSub " as ".data
      (x.data ++ (' ' :: 'a' :: 's' :: ' ' :: y.data)) = some (x.data, y.data) := by
    have hb := splitOnceSub_boundary ' ' ('a' :: 's' :: ' ' :: []) y.data x.data
      (fun ch hch => identChar_ne ch ' ' (hxall ch hch) (by decide))
    exact hb
  simp only [hsplit]
  simp only [trimC_ident y hy, trimLeadSub_ident y hy]
  rw [if_neg (plainIdent_ne_nil y hy)]

theorem penStep_type (s : String) (hs : isPlainIdent s = true) (out : List String) :
    penStep out (' ' :: 't' :: 'y' :: 'p' :: 'e' :: ' ' :: (s.data ++ [' '])) =
      insertSet s out := by
  have hpart : trimC (' ' :: 't' :: 'y' :: 'p' :: 'e' :: ' ' :: (s.data ++ [' '])) =
      't' :: 'y' :: 'p' :: 'e' :: ' ' :: s.data := by
    unfold trimC
    have hR : trimR (' ' :: 't' :: 'y' :: 'p' :: 'e' :: ' ' :: (s.data ++ [' '])) =
        trimR (' ' :: 't' :: 'y' :: 'p' :: 'e' :: ' ' :: s.data) := by
      rw [show ' ' :: 't' :: 'y' :: 'p' :: 'e' :: ' ' :: (s.data ++ [' '])
          = (' ' :: 't' :: 'y' :: 'p' :: 'e' :: ' ' :: s.data) ++ [' '] by simp]
      exact trimR_ws_concat _ ' ' (by decide)
    rw [hR]
    have hR2 : trimR (' ' :: 't' :: 'y' :: 'p' :: 'e' :: ' ' :: s.data) =
        ' ' :: 't' :: 'y' :: 'p' :: 'e' :: ' ' :: s.data := by
      apply trimR_eq_self
      intro ch hch
      apply last_ws_of_append_ident ([' ', 't', 'y', 'p', 'e', ' '] : Chars) s hs ch
      have he : ([' ', 't', 'y', 'p', 'e', ' '] : Chars) ++ s.data
          = ' ' :: 't' :: 'y' :: 'p' :: 'e' :: ' ' :: s.data := by simp
      rw [he]
      exact hch
    rw [hR2, trimL_ws_cons ' ' _ (by decide)]
    apply trimL_eq_self
    intro ch hch
    simp at hch
    subst hch
    decide
  unfold penStep
  simp only [hpart]
  rw [if_neg (by simp)]
  rw [if_neg (by
    intro he
    have hh := congrArg List.head? he
    rw [show ("default".data).head? = some 'd' from rfl] at hh
    rw [List.head?_cons] at hh
    exact absurd (Option.some.inj hh) (by decide))]
  have hsplit : splitOnceSub " as ".data ('t' :: 'y' :: 'p' :: 'e' :: ' ' :: s.data)
      = none := by
    apply splitOnceSub_count_none " as ".data ' '
    simp only [List.count_cons]
    rw [ident_count_space s hs]
    decide
  simp only [hsplit]
  have htls : trimLeadSub "type ".data ('t' :: 'y' :: 'p' :: 'e' :: ' ' :: s.data)
      = s.data := by
    unfold trimLeadSub
    simp only [List.length_cons]
    rw [show trimLeadSubGo "type ".data (s.data.length + 1 + 1 + 1 + 1 + 1)
        ('t' :: 'y' :: 'p' :: 'e' :: ' ' :: s.data)
      = trimLeadSubGo "type ".data (s.data.length + 1 + 1 + 1 + 1) s.data from by
        show (if (!"type ".data.isEmpty
              && isPre "type ".data ('t' :: 'y' :: 'p' :: 'e' :: ' ' :: s.data)) = true
          then trimLeadSubGo "type ".data (s.data.length + 1 + 1 + 1 + 1)
            (('t' :: 'y' :: 'p' :: 'e' :: ' ' :: s.data).drop "type ".data.length)
          else 't' :: 'y' :: 'p' :: 'e' :: ' ' :: s.data)
        = trimLeadSubGo "type ".data (s.data.length + 1 + 1 + 1 + 1) s.data
        rw [if_pos (show (!"type ".data.isEmpty
          && isPre "type ".data ('t' :: 'y' :: 'p' :: 'e' :: ' ' :: s.data)) = true
          from rfl)]
        rfl]
    exact trimLeadSubGo_no_space _ _ (plainIdent_no_space s hs)
  simp only [htls, trimC_ident s hs]
  rw [if_neg (plainIdent_ne_nil s hs)]


/-! ## Claim C2: the import-clause theorem -/

theorem importClauseOf_no_star (a b c d : String)
    (ha : isPlainIdent a = true) (hb : isPlainIdent b = true)
    (hc : isPlainIdent c = true) (hd : isPlainIdent d = true) :
    ∀ ch ∈ importClauseOf a b c d, ch ≠ '*' := by
  intro ch hch he
  subst he
  unfold importClauseOf at hch
  simp at hch
  rcases hch with h | h | h | h | h | h
  · exact absurd h (by decide)
  · exact absurd (plainIdent_all a ha '*' h) (by decide)
  · exact absurd (plainIdent_all b hb '*' h) (by decide)
  · exact absurd (plainIdent_all c hc '*' h) (by decide)
  · exact absurd (plainIdent_all d hd '*' h) (by decide)
  · exact absurd h (by decide)

theorem importClauseOf_trimC (a b c d : String) :
    trimC (importClauseOf a b c d) = importClauseOf a b c d := by
  apply trimC_eq_self
  · intro ch hch
    rw [show (importClauseOf a b c d).head? = some lbr from rfl] at hch
    simp at hch
    subst hch
    decide
  · intro ch hch
    rw [show importClauseOf a b c d
        = (lbr :: ' ' :: (a.data ++ (',' :: ' ' :: (b.data ++
            (' ' :: 'a' :: 's' :: ' ' :: (c.data ++
              (',' :: ' ' :: 't' :: 'y' :: 'p' :: 'e' :: ' ' :: (d.data ++ [' '])))))))) ++ [rbr]
        from by unfold importClauseOf; simp] at hch
    rw [List.getLast?_concat] at hch
    simp at hch
    subst hch
    decide

/-- Claim C2 (amended): for the braced import clause
`\x7b a, b as c, type d \x7d` over arbitrary distinct plain identifiers,
the parsed import record\x27s name set is exactly \x7ba, c, d\x7d: the code keeps
the RIGHT-hand (local) name of an `as` entry, because
`parse_import_clause` reuses `parse_export_names`, and strips a leading
`type` qualifier; the imported name `b` to the left of `as` is not in
the set. -/
theorem c2_import_clause_names (a b c d : String)
    (ha : isPlainIdent a = true) (hb : isPlainIdent b = true)
    (hc : isPlainIdent c = true) (hd : isPlainIdent d = true)
    (hca : c ≠ a) (hda : d ≠ a) (hdc : d ≠ c)
    (hba : b ≠ a) (hbc : b ≠ c) (hbd : b ≠ d) :
    parseImportClause (importClauseOf a b c d) emptyRecord =
      { emptyRecord with names := [a, c, d] }
    ∧ c ∈ (parseImportClause (importClauseOf a b c d) emptyRecord).names
    ∧ b ∉ (parseImportClause (importClauseOf a b c d) emptyRecord).names := by
  have hF1 := importClauseOf_trimC a b c d
  have hF2 : isPre "type ".data (importClauseOf a b c d) = false := by
    rw [show "type ".data = 't' :: 'y' :: 'p' :: 'e' :: ' ' :: [] from rfl]
    unfold importClauseOf
    show (decide ('t' = lbr) && isPre ('y' :: 'p' :: 'e' :: ' ' :: [])
      (' ' :: (a.data ++ (',' :: ' ' :: (b.data ++
        (' ' :: 'a' :: 's' :: ' ' :: (c.data ++
          (',' :: ' ' :: 't' :: 'y' :: 'p' :: 'e' :: ' ' :: (d.data ++ [' ', rbr]))))))))) = false
    rw [show (decide ('t' = lbr)) = false from by decide, Bool.false_and]
  have hF3 : containsSub "* as".data (importClauseOf a b c d) = false := by
    rw [show "* as".data = '*' :: (' ' :: 'a' :: 's' :: []) from rfl]
    exact containsSub_head_not_mem '*' _ _ (importClauseOf_no_star a b c d ha hb hc hd)
  have hPEN : parseExportNames (importClauseOf a b c d) = [a, c, d] := by
    have hlead : trimLeadChar lbr (importClauseOf a b c d) =
        ' ' :: (a.data ++ (',' :: ' ' :: (b.data ++
          (' ' :: 'a' :: 's' :: ' ' :: (c.data ++
            (',' :: ' ' :: 't' :: 'y' :: 'p' :: 'e' :: ' ' :: (d.data ++ [' ', rbr]))))))) := by
      unfold importClauseOf trimLeadChar
      rw [List.dropWhile_cons_of_pos (by simp), List.dropWhile_cons_of_neg (by decide)]
    have htrail : trimTrailChar rbr
        (' ' :: (a.data ++ (',' :: ' ' :: (b.data ++
          (' ' :: 'a' :: 's' :: ' ' :: (c.data ++
            (',' :: ' ' :: 't' :: 'y' :: 'p' :: 'e' :: ' ' :: (d.data ++ [' ', rbr])))))))) =
        ' ' :: (a.data ++ (',' :: ' ' :: (b.data ++
          (' ' :: 'a' :: 's' :: ' ' :: (c.data ++
            (',' :: ' ' :: 't' :: 'y' :: 'p' :: 'e' :: ' ' :: (d.data ++ [' ']))))))) := by
      rw [show ' ' :: (a.data ++ (',' :: ' ' :: (b.data ++
          (' ' :: 'a' :: 's' :: ' ' :: (c.data ++
            (',' :: ' ' :: 't' :: 'y' :: 'p' :: 'e' :: ' ' :: (d.data ++ [' ', rbr])))))))
        = (' ' :: (a.data ++ (',' :: ' ' :: (b.data ++
            (' ' :: 'a' :: 's' :: ' ' :: (c.data ++
              (',' :: ' ' :: 't' :: 'y' :: 'p' :: 'e' :: ' ' :: (d.data ++ [' '])))))))) ++ [rbr]
        from by simp]
      rw [trimTrail_concat_self]
      apply trimTrail_eq_self
      intro ch hch
      rw [show (' ' :: (a.data ++ (',' :: ' ' :: (b.data ++
          (' ' :: 'a' :: 's' :: ' ' :: (c.data ++
            (',' :: ' ' :: 't' :: 'y' :: 'p' :: 'e' :: ' ' :: (d.data ++ [' ']))))))))
        = (' ' :: (a.data ++ (',' :: ' ' :: (b.data ++
            (' ' :: 'a' :: 's' :: ' ' :: (c.data ++
              (',' :: ' ' :: 't' :: 'y' :: 'p' :: 'e' :: ' ' :: d.data))))))) ++ [' ']
        from by simp, List.getLast?_concat] at hch
      simp at hch
      subst hch
      decide
    have hP1 : ∀ ch ∈ (' ' :: a.data), ch ≠ ',' := by
      intro ch hch he
      subst he
      simp at hch
      exact absurd (plainIdent_all a ha ',' hch) (by decide)
    have hP2 : ∀ ch ∈ (' ' :: (b.data ++ (' ' :: 'a' :: 's' :: ' ' :: c.data))),
        ch ≠ ',' := by
      intro ch hch he
      subst he
      simp at hch
      rcases hch with h | h
      · exact absurd (plainIdent_all b hb ',' h) (by decide)
      · exact absurd (plainIdent_all c hc ',' h) (by decide)
    have hP3 : ∀ ch ∈ (' ' :: 't' :: 'y' :: 'p' :: 'e' :: ' ' :: (d.data ++ [' '])),
        ch ≠ ',' := by
      intro ch hch he
      subst he
      simp at hch
      exact absurd (plainIdent_all d hd ',' hch) (by decide)
    have hsplitAll : splitOnChar ','
        (' ' :: (a.data ++ (',' :: ' ' :: (b.data ++
          (' ' :: 'a' :: 's' :: ' ' :: (c.data ++
            (',' :: ' ' :: 't' :: 'y' :: 'p' :: 'e' :: ' ' :: (d.data ++ [' ']))))))))
        = [' ' :: a.data,
           ' ' :: (b.data ++ (' ' :: 'a' :: 's' :: ' ' :: c.data)),
           ' ' :: 't' :: 'y' :: 'p' :: 'e' :: ' ' :: (d.data ++ [' '])] := by
      rw [show ' ' :: (a.data ++ (',' :: ' ' :: (b.data ++
          (' ' :: 'a' :: 's' :: ' ' :: (c.data ++
            (',' :: ' ' :: 't' :: 'y' :: 'p' :: 'e' :: ' ' :: (d.data ++ [' '])))))))
        = (' ' :: a.data) ++ ',' ::
            ((' ' :: (b.data ++ (' ' :: 'a' :: 's' :: ' ' :: c.data))) ++ ',' ::
              (' ' :: 't' :: 'y' :: 'p' :: 'e' :: ' ' :: (d.data ++ [' '])))
        from by simp]
      rw [splitOnChar_append ',' _ (' ' :: a.data) hP1]
      rw [splitOnChar_append ',' _ (' ' :: (b.data ++ (' ' :: 'a' :: 's' :: ' ' :: c.data))) hP2]
      rw [splitOnChar_not_mem ',' _ hP3]
    unfold parseExportNames
    simp only [hF1, hlead, htrail, hsplitAll]
    rw [List.foldl_cons, List.foldl_cons, List.foldl_cons, List.foldl_nil]
    rw [penStep_ident_pad a ha, penStep_as b c hb hc, penStep_type d hd]
    rw [show insertSet a [] = [a] from by
      rw [insertSet_not_mem a [] (by simp)]; rfl]
    rw [show insertSet c [a] = [a, c] from by
      rw [insertSet_not_mem c [a] (by simp [hca])]; rfl]
    rw [show insertSet d [a, c] = [a, c, d] from by
      rw [insertSet_not_mem d [a, c] (by simp [hda, hdc])]; rfl]
  have hmain : parseImportClause (importClauseOf a b c d) emptyRecord =
      { emptyRecord with names := [a, c, d] } := by
    unfold parseImportClause
    simp only [hF1, hF2, Bool.false_eq_true, if_false, hF3]
    rw [if_pos (show (importClauseOf a b c d).head? = some lbr from rfl)]
    rw [hPEN]
    show { emptyRecord with names := extendNames emptyRecord.names [a, c, d] } =
      { emptyRecord with names := [a, c, d] }
    rw [show extendNames emptyRecord.names [a, c, d] = [a, c, d] from by
      unfold extendNames
      rw [List.foldl_cons, List.foldl_cons, List.foldl_cons, List.foldl_nil]
      show insertSet d (insertSet c (insertSet a [])) = [a, c, d]
      rw [show insertSet a [] = [a] from by
        rw [insertSet_not_mem a [] (by simp)]; rfl]
      rw [show insertSet c [a] = [a, c] from by
        rw [insertSet_not_mem c [a] (by simp [hca])]; rfl]
      rw [show insertSet d [a, c] = [a, c, d] from by
        rw [insertSet_not_mem d [a, c] (by simp [hda, hdc])]; rfl]]
  refine ⟨hmain, ?_, ?_⟩
  · rw [hmain]
    simp
  · rw [hmain]
    simp [hba, hbc, hbd]

/-- Claim C2 (counterexample to the claim as stated): the concrete
statement `import \x7b a, b as c, type d \x7d from \x27s\x27` yields the name set
\x7ba, c, d\x7d — it contains the local alias `c` (right of `as`) and not
the imported name `b` (left of `as`), the opposite of the claimed set. -/
theorem c2_counterexample :
    (parseModule importC2).imports =
      [{ emptyRecord with specifier := "s", names := ["a", "c", "d"] }]
    ∧ "c" ∈ ((parseModule importC2).imports.headD emptyRecord).names
    ∧ "b" ∉ ((parseModule importC2).imports.headD emptyRecord).names :=
  ⟨by decide, by decide, by decide⟩

/-- Claim C2 (witness): the amended clause theorem at the concrete
identifiers `a`, `b`, `c`, `d`. -/
theorem c2_witness :
    parseImportClause (importClauseOf "a" "b" "c" "d") emptyRecord =
      { emptyRecord with names := ["a", "c", "d"] }
    ∧ "c" ∈ (parseImportClause (importClauseOf "a" "b" "c" "d") emptyRecord).names
    ∧ "b" ∉ (parseImportClause (importClauseOf "a" "b" "c" "d") emptyRecord).names :=
  c2_import_clause_names "a" "b" "c" "d" (by decide) (by decide) (by decide)
    (by decide) (by decide) (by decide) (by decide) (by decide) (by decide)
    (by decide)


/-! ## Claim C3: the unused-export emission criterion -/

/-- Claim C3 (amended): a finding is in the emitted unused-export list
exactly when some module-map entry passes the reachable / not-maybe-used
/ not-entry / not-test / not-stub / usage-not-`all` gates and the
finding is one of its named exports that survives BOTH count-based token
suppression tests (`export_appears_in_other_reachable_files` and
`export_appears_in_other_project_files`) and is not named-used — or its
unused default export.  The suppression tests count token-holding files
(more than one file, or the degenerate single-file scope) rather than
testing occurrence in a file other than the exporter, which the original
claim asserted. -/
theorem c3_unused_exports_criterion (root : String)
    (mods : List (String × ModuleInfo)) (reach maybeUsed entrySet : List String)
    (usage : List (String × ExportUsage)) (cache : List (String × List String))
    (files : List String) (u : UnusedExport) :
    u ∈ collectUnusedExports root mods reach maybeUsed entrySet usage cache files ↔
      ∃ fm ∈ mods,
        reach.contains fm.1 = true
        ∧ maybeUsed.contains fm.1 = false
        ∧ entrySet.contains fm.1 = false
        ∧ isTestLikeFile fm.1 = false
        ∧ isDeclarationFile fm.1 = false
        ∧ (usageOf usage fm.1).all = false
        ∧ u.file = relativeDisplay root fm.1
        ∧ ((u.«export» ∈ fm.2.exports
              ∧ exportAppearsInOtherReachableFiles reach cache u.«export» fm.1 = false
              ∧ exportAppearsInOtherProjectFiles files cache u.«export» fm.1 = false
              ∧ (usageOf usage fm.1).names.contains u.«export» = false)
           ∨ (u.«export» = "default"
              ∧ fm.2.has_default_export = true
              ∧ (usageOf usage fm.1).default_used = false)) := by
  obtain ⟨uf, ue⟩ := u
  unfold collectUnusedExports
  rw [mem_dedupAdj, mem_sortByFn, List.mem_flatMap]
  constructor
  · rintro ⟨fm, hfm, hu⟩
    refine ⟨fm, hfm, ?_⟩
    dsimp only at hu
    cases h1 : reach.contains fm.1 with
    | false =>
      rw [if_pos (show (!reach.contains fm.1) = true by rw [h1]; rfl)] at hu
      simp at hu
    | true =>
      rw [if_neg (show ¬((!reach.contains fm.1) = true) by rw [h1]; simp)] at hu
      cases h2 : maybeUsed.contains fm.1 with
      | true =>
        rw [if_pos h2] at hu
        simp at hu
      | false =>
        rw [if_neg (show ¬(maybeUsed.contains fm.1 = true) by rw [h2]; simp)] at hu
        cases h3 : (entrySet.contains fm.1 || isTestLikeFile fm.1
            || isDeclarationFile fm.1) with
        | true =>
          rw [if_pos h3] at hu
          simp at hu
        | false =>
          rw [if_neg (show ¬((entrySet.contains fm.1 || isTestLikeFile fm.1
            || isDeclarationFile fm.1) = true) by rw [h3]; simp)] at hu
          rw [Bool.or_eq_false_iff, Bool.or_eq_false_iff] at h3
          cases h4 : (usageOf usage fm.1).all with
          | true =>
            rw [if_neg (show ¬((!(usageOf usage fm.1).all) = true) by
              rw [h4]; simp)] at hu
            simp at hu
          | false =>
            rw [if_pos (show (!(usageOf usage fm.1).all) = true by
              rw [h4]; rfl)] at hu
            refine ⟨rfl, rfl, h3.1.1, h3.1.2, h3.2, rfl, ?_⟩
            rcases List.mem_append.mp hu with hL | hR
            · rcases List.mem_filterMap.mp hL with ⟨en, hen, hsome⟩
              cases s1 : exportAppearsInOtherReachableFiles reach cache en fm.1 with
              | true =>
                rw [if_pos s1] at hsome
                exact Option.noConfusion hsome
              | false =>
                rw [if_neg (show ¬(exportAppearsInOtherReachableFiles reach cache
                    en fm.1 = true) by rw [s1]; simp)] at hsome
                cases s2 : exportAppearsInOtherProjectFiles files cache en fm.1 with
                | true =>
                  rw [if_pos s2] at hsome
                  exact Option.noConfusion hsome
                | false =>
                  rw [if_neg (show ¬(exportAppearsInOtherProjectFiles files cache
                      en fm.1 = true) by rw [s2]; simp)] at hsome
                  cases s3 : (usageOf usage fm.1).names.contains en with
                  | true =>
                    rw [if_neg (show ¬((!(usageOf usage fm.1).names.contains en)
                        = true) by rw [s3]; simp)] at hsome
                    exact Option.noConfusion hsome
                  | false =>
                    rw [if_pos (show (!(usageOf usage fm.1).names.contains en)
                        = true by rw [s3]; rfl)] at hsome
                    have hrec := Option.some.inj hsome
                    injection hrec with hf hee
                    subst hee
                    exact ⟨hf.symm, Or.inl ⟨hen, s1, s2, s3⟩⟩
            · cases h5 : (fm.2.has_default_export
                  && !(usageOf usage fm.1).default_used) with
              | false =>
                rw [if_neg (show ¬((fm.2.has_default_export
                    && !(usageOf usage fm.1).default_used) = true) by
                  rw [h5]; simp)] at hR
                simp at hR
              | true =>
                rw [if_pos h5] at hR
                rw [Bool.and_eq_true] at h5
                rw [List.mem_singleton] at hR
                injection hR.symm with hf hee
                exact ⟨hf.symm, Or.inr ⟨hee.symm, h5.1, by simpa using h5.2⟩⟩
  · rintro ⟨fm, hfm, h1, h2, he, ht, hd, h4, hfile, hcase⟩
    refine ⟨fm, hfm, ?_⟩
    dsimp only
    rw [if_neg (show ¬((!reach.contains fm.1) = true) by rw [h1]; simp),
      if_neg (show ¬(maybeUsed.contains fm.1 = true) by rw [h2]; simp),
      if_neg (show ¬((entrySet.contains fm.1 || isTestLikeFile fm.1
        || isDeclarationFile fm.1) = true) by rw [he, ht, hd]; simp),
      if_pos (show (!(usageOf usage fm.1).all) = true by rw [h4]; rfl)]
    rcases hcase with ⟨hen, s1, s2, s3⟩ | ⟨hdef, hde, hdu⟩
    · apply List.mem_append.mpr
      left
      apply List.mem_filterMap.mpr
      refine ⟨ue, hen, ?_⟩
      rw [if_neg (show ¬(exportAppearsInOtherReachableFiles reach cache ue fm.1
          = true) by rw [s1]; simp),
        if_neg (show ¬(exportAppearsInOtherProjectFiles files cache ue fm.1
          = true) by rw [s2]; simp),
        if_pos (show (!(usageOf usage fm.1).names.contains ue) = true by
          rw [s3]; rfl)]
      rw [show uf = relativeDisplay root fm.1 from hfile]
    · apply List.mem_append.mpr
      right
      rw [if_pos (show (fm.2.has_default_export
          && !(usageOf usage fm.1).default_used) = true by rw [hde, hdu]; rfl)]
      simp only [List.mem_singleton]
      rw [show uf = relativeDisplay root fm.1 from hfile,
        show ue = "default" from hdef]

/-- Claim C3 (counterexample to the claim as stated): in the
comment-spelled-export world, module `m.ts`\x27s export `ab` IS an
identifier token of the reachable sibling `n.ts` (a reachable file other
than `m.ts`), yet it is still emitted as unused, because the suppression
test counts token-holding files (the raw text of `m.ts` spells `ab` as
`a/**/b`, so only one file holds the token). -/
theorem c3_counterexample :
    ({ file := "m.ts", «export» := "ab" } : UnusedExport)
        ∈ (runAnalysis wTok flGate).unused_exports
    ∧ "/r/n.ts" ∈ reachableOf wTok flGate
    ∧ "ab" ∈ tokensOf (contentOf wTok.contents "/r/n.ts")
    ∧ "/r/n.ts" ≠ "/r/m.ts"
    ∧ "ab" ∈ (parseModule (contentOf wTok.contents "/r/m.ts")).exports
    ∧ "ab" ∉ tokensOf (contentOf wTok.contents "/r/m.ts") :=
  ⟨by decide, by decide, by decide, by decide, by decide, by decide⟩
